import Mathlib

/-!
Verification development for the PY-Maze-GUI repository (file `a3.py`):
the presentation and session-control layer of the MazeRunner game.

The file embeds, as executable Lean definitions, the save/load routine of
`MazeRunnerFile`, the per-line dispatch of `MazeRunnerFile.load`, the timer
state machine of `ControlsFrame`, the keypress/load-game controller handlers
of `GraphicalMazeRunner`, and the inventory-splitting logic of
`GraphicalInterface._draw_inventory`.  Strings of the Python program are
embedded as `List Char`; Python dictionaries (which preserve insertion
order) are embedded as association lists.

The external game model (`a2_solution`: `Model`, `Player`, `Inventory`,
item classes) and the constants module are not part of the examined source;
definitions that stand in for them are marked `Modelled from the spec:` in
their doc comments.
-/

/-! ## Definitions -/

/-! ### Basic character and list helpers (Python string primitives) -/

/-- The newline character used by the save file format. -/
def nlChar : Char := Char.ofNat 10

/-- The single-quote character used by Python `repr` of strings. -/
def sqChar : Char := Char.ofNat 39

/-- The opening-brace character of Python dict `repr`. -/
def lbChar : Char := Char.ofNat 123

/-- The closing-brace character of Python dict `repr`. -/
def rbChar : Char := Char.ofNat 125

/-- Splits a character list at every occurrence of `sep`, keeping empty
pieces (the embedding of splitting a Python file into lines at newlines). -/
def splitCh (sep : Char) : List Char → List (List Char)
  | [] => [[]]
  | c :: cs =>
    if c = sep then [] :: splitCh sep cs
    else
      match splitCh sep cs with
      | [] => [[c]]
      | h :: t => (c :: h) :: t

/-- Embedding of Python `str.strip()`: removes leading and trailing
whitespace characters. -/
def stripCh (l : List Char) : List Char :=
  ((l.dropWhile Char.isWhitespace).reverse.dropWhile Char.isWhitespace).reverse

/-- Embedding of Python `str.startswith`: `hasPre p l` is true when `p` is
a prefix of `l`. -/
def hasPre : List Char → List Char → Bool
  | [], _ => true
  | _ :: _, [] => false
  | p :: ps, c :: cs => if p = c then hasPre ps cs else false

/-- Embedding of Python `s.split(' ')[0]`: the segment of `l` before the
first space. -/
def headSp (l : List Char) : List Char := l.takeWhile (fun c => c ≠ ' ')

/-- Embedding of Python list indexing `l[i]` with negative-index wrap. -/
def pyIdx (l : List α) (i : Int) : Option α :=
  if 0 ≤ i then l.get? i.toNat
  else if (-i).toNat ≤ l.length then l.get? (l.length - (-i).toNat)
  else none

/-- Embedding of Python list element assignment `l[i] = x` with
negative-index wrap; fails (raises) when the index is out of range. -/
def pySetIdx (l : List α) (i : Int) (x : α) : Option (List α) :=
  if 0 ≤ i then (if i.toNat < l.length then some (l.set i.toNat x) else none)
  else if (-i).toNat ≤ l.length then some (l.set (l.length - (-i).toNat) x)
  else none

/-- Folds a fallible step over a list, propagating failure (the embedding
of a Python loop whose body may raise). -/
def foldSteps (f : σ → α → Option σ) : σ → List α → Option σ
  | s, [] => some s
  | s, a :: as =>
    match f s a with
    | none => none
    | some s' => foldSteps f s' as

/-! ### Decimal integers: Python `repr` and `int()` -/

/-- The decimal digit character for `d` (`0 ≤ d ≤ 9`). -/
def digitChar10 (d : Nat) : Char := Char.ofNat (48 + d)

/-- Fuelled decimal rendering of a natural number, most significant digit
first. -/
def reprNatAux : Nat → Nat → List Char
  | 0, _ => []
  | fuel + 1, n =>
    if n < 10 then [digitChar10 n]
    else reprNatAux fuel (n / 10) ++ [digitChar10 (n % 10)]

/-- Modelled from the spec: Python `repr`/`str` of a non-negative integer
(decimal, no sign, no separators). -/
def reprNat (n : Nat) : List Char := reprNatAux (n + 1) n

/-- Modelled from the spec: Python `repr`/`str` of an integer, a `-` sign
followed by the decimal digits when negative. -/
def reprInt (i : Int) : List Char :=
  if i < 0 then '-' :: reprNat (-i).toNat else reprNat i.toNat

/-- The value of a list of decimal digit characters. -/
def digitsToNat (l : List Char) : Nat :=
  l.foldl (fun a c => 10 * a + (c.toNat - 48)) 0

/-- Parses a non-empty run of decimal digits from the front of `l`. -/
def parseNat (l : List Char) : Option (Nat × List Char) :=
  let ds := l.takeWhile Char.isDigit
  if ds.isEmpty then none
  else some (digitsToNat ds, l.dropWhile Char.isDigit)

/-- Parses an optionally signed decimal integer from the front of `l`. -/
def parseInt (l : List Char) : Option (Int × List Char) :=
  match l with
  | [] => none
  | c :: r =>
    if c = '-' then (parseNat r).map (fun p => (-(p.1 : Int), p.2))
    else if c = '+' then (parseNat r).map (fun p => ((p.1 : Int), p.2))
    else (parseNat (c :: r)).map (fun p => ((p.1 : Int), p.2))

/-- Modelled from the spec: Python `int(s)` — strips surrounding
whitespace, accepts an optional sign and decimal digits, and fails on any
other input. -/
def pyInt (l : List Char) : Option Int :=
  match parseInt (stripCh l) with
  | some (n, []) => some n
  | _ => none

/-! #### Round-trip lemmas for decimal integers -/

/-- A "digit-safe" continuation: one that does not begin with a decimal
digit, so that greedy digit parsing stops exactly at the rendered number. -/
def digitSafe (l : List Char) : Prop :=
  ∀ c, l.head? = some c → c.isDigit = false

/-! ### The game model (external collaborator of the view layer) -/

/-- Modelled from the spec: the item kinds the player collects (the item
classes of the external model component). -/
inductive ItemName where
  | Coin | Potion | Water | Honey | Apple
  deriving DecidableEq, Repr

/-- Modelled from the spec: the Python class name of an item kind, used as
the inventory dictionary key and in the item's `repr`. -/
def nameChars : ItemName → List Char
  | .Coin => ['C', 'o', 'i', 'n']
  | .Potion => ['P', 'o', 't', 'i', 'o', 'n']
  | .Water => ['W', 'a', 't', 'e', 'r']
  | .Honey => ['H', 'o', 'n', 'e', 'y']
  | .Apple => ['A', 'p', 'p', 'l', 'e']

/-- Modelled from the spec: the one-character ID of an item kind
(`str(item)` and the `COIN` constant compare these IDs). -/
def itemId : ItemName → Char
  | .Coin => 'C'
  | .Potion => 'M'
  | .Water => 'W'
  | .Honey => 'H'
  | .Apple => 'A'

/-- Modelled from the spec: the `COIN` identifier constant that
`_draw_inventory` compares against `str(item)`. -/
def COIN_ID : Char := itemId .Coin

/-- Modelled from the spec: an item instance of the external model — a kind
together with its maze position. -/
structure PyItem where
  name : ItemName
  pos : Int × Int
  deriving DecidableEq, Repr

/-- The entity dictionary of a level: position ↦ item, in insertion
order (the embedding of a Python dict). -/
abbrev EntMap := List ((Int × Int) × PyItem)

/-- The inventory dictionary: item-name string ↦ list of items, in
insertion order (the embedding of a Python dict). -/
abbrev InvMap := List (List Char × List PyItem)

/-- Modelled from the spec: the player of the external model, with a
position tuple, an inventory dictionary and the three survival stats. -/
structure Player where
  position : List Int
  inventory : InvMap
  health : Int
  hunger : Int
  thirst : Int
  deriving DecidableEq, Repr

/-- Modelled from the spec: a maze level of the external model, holding the
level's item entities (and the state of its locked door). -/
structure Level where
  items : EntMap
  doorUnlocked : Bool
  deriving DecidableEq, Repr

/-- Modelled from the spec: the external game-state model bound to the GUI:
current level number, the game file it was loaded from, the levels, the
player, and the win/lose/level-up reports. -/
structure Model where
  game_file : List Char
  level_num : Int
  levels : List Level
  player : Player
  hasWon : Bool
  hasLost : Bool
  didLevelUp : Bool
  deriving DecidableEq, Repr

/-- Modelled from the spec: the `Player(position)` constructor — a fresh
player at the given position with an empty inventory and initial stats. -/
def playerCtor (pos : List Int) : Player :=
  { position := pos, inventory := [], health := 100, hunger := 0, thirst := 0 }

/-- Modelled from the spec: `Level.attempt_unlock_door` — unlocks the
level's door once no coins remain among its items; it does not change the
item dictionary. -/
def attemptUnlockDoor (l : Level) : Level :=
  if l.items.all (fun kv => kv.2.name ≠ ItemName.Coin) then
    { l with doorUnlocked := true }
  else l

/-- `Model.get_current_items()`: the item dictionary of the current level. -/
def currentItems (m : Model) : Option EntMap :=
  (pyIdx m.levels m.level_num).map Level.items

/-- `Model.get_player_stats()`: the (HP, hunger, thirst) tuple. -/
def playerStats (m : Model) : Int × Int × Int :=
  (m.player.health, m.player.hunger, m.player.thirst)

/-- Modelled from the spec: the environment in which the program runs — the
file system seen by `open`, and the data the `Model(game_file)` constructor
derives from a maze game file (its levels and the fresh player). -/
structure Env where
  fs : List Char → Option (List Char)
  loadGame : List Char → Option (List Level × Player)

/-- Modelled from the spec: the `Model(game_file)` constructor — reads the
game file and starts a fresh game on its levels: level 0, fresh player, not
won, not lost. -/
def modelCtor (env : Env) (p : List Char) : Option Model :=
  (env.loadGame p).map fun d =>
    { game_file := p, level_num := 0, levels := d.1, player := d.2,
      hasWon := false, hasLost := false, didLevelUp := false }

/-! ### Python `repr` of the payload values written by `save` -/

/-- The rendering of the elements of an integer tuple after the first,
including the closing parenthesis. -/
def reprTupTail (ys : List Int) : List Char :=
  ys.foldr (fun x acc => ',' :: ' ' :: reprInt x ++ acc) [')']

/-- Modelled from the spec: Python `repr` of a tuple of integers
(`()`, `(1,)`, `(1, 2)`, …). -/
def reprIntTuple : List Int → List Char
  | [] => ['(', ')']
  | [a] => '(' :: (reprInt a ++ [',', ')'])
  | a :: b :: xs => '(' :: (reprInt a ++ reprTupTail (b :: xs))

/-- Modelled from the spec: Python `repr` of an item instance, the
constructor expression `Name((r, c))`. -/
def reprItem (it : PyItem) : List Char :=
  nameChars it.name ++ '(' :: (reprIntTuple [it.pos.1, it.pos.2] ++ [')'])

/-- The rendering of the elements of an item list after the first,
including the closing bracket. -/
def reprListTail (its : List PyItem) : List Char :=
  its.foldr (fun x acc => ',' :: ' ' :: reprItem x ++ acc) [']']

/-- Modelled from the spec: Python `repr` of a list of items
(`[]`, `[Coin((0, 1)), …]`). -/
def reprItemList : List PyItem → List Char
  | [] => ['[', ']']
  | it :: its => '[' :: (reprItem it ++ reprListTail its)

/-- Modelled from the spec: Python `repr` of one entity-dictionary entry,
`(r, c): Name((r, c))`. -/
def reprEntEntry (kv : (Int × Int) × PyItem) : List Char :=
  reprIntTuple [kv.1.1, kv.1.2] ++ ':' :: ' ' :: reprItem kv.2

/-- The rendering of the entries of the entity dictionary after the first,
including the closing brace. -/
def reprEntTail (kvs : EntMap) : List Char :=
  kvs.foldr (fun x acc => ',' :: ' ' :: reprEntEntry x ++ acc) [rbChar]

/-- Modelled from the spec: Python `repr` of the entity dictionary written
on the `Entities` save line. -/
def reprEnt : EntMap → List Char
  | [] => [lbChar, rbChar]
  | kv :: kvs => lbChar :: (reprEntEntry kv ++ reprEntTail kvs)

/-- Modelled from the spec: Python `repr` of one inventory-dictionary
entry, `'Name': [items]`. -/
def reprInvEntry (kv : List Char × List PyItem) : List Char :=
  sqChar :: kv.1 ++ sqChar :: ':' :: ' ' :: reprItemList kv.2

/-- The rendering of the entries of the inventory dictionary after the
first, including the closing brace. -/
def reprInvTail (kvs : InvMap) : List Char :=
  kvs.foldr (fun x acc => ',' :: ' ' :: reprInvEntry x ++ acc) [rbChar]

/-- Modelled from the spec: Python `repr` of the inventory dictionary
written on the `Inventory` save line. -/
def reprInv : InvMap → List Char
  | [] => [lbChar, rbChar]
  | kv :: kvs => lbChar :: (reprInvEntry kv ++ reprInvTail kvs)

/-! ### Parsers: the model of `eval` on the save-file payload grammar -/

/-- Parses the remaining elements of an integer tuple after the first
element, up to the closing parenthesis (handling Python's trailing comma
for singleton tuples). -/
def parseIntTupleTail : Nat → List Int → List Char → Option (List Int × List Char)
  | 0, _, _ => none
  | fuel + 1, acc, l =>
    match l with
    | ',' :: l' =>
      match l' with
      | ' ' :: r =>
        match parseInt r with
        | none => none
        | some (n, r') => parseIntTupleTail fuel (acc ++ [n]) r'
      | ')' :: r => some (acc, r)
      | _ => none
    | ')' :: r => some (acc, r)
    | _ => none

/-- Modelled from the spec: `eval` of a Python integer-tuple expression
(`()`, `(1,)`, `(1, 2)`, …), returning the tuple and the rest of the
input. -/
def parseIntTuple (l : List Char) : Option (List Int × List Char) :=
  match l with
  | '(' :: r =>
    if r.head? = some ')' then some ([], r.tail)
    else
      match parseInt r with
      | none => none
      | some (n, r₁) => parseIntTupleTail r₁.length [n] r₁
  | _ => none

/-- Parses an item-class name from the front of the input. -/
def parseItemName (l : List Char) : Option (ItemName × List Char) :=
  if hasPre (nameChars .Coin) l then some (.Coin, l.drop 4)
  else if hasPre (nameChars .Potion) l then some (.Potion, l.drop 6)
  else if hasPre (nameChars .Water) l then some (.Water, l.drop 5)
  else if hasPre (nameChars .Honey) l then some (.Honey, l.drop 5)
  else if hasPre (nameChars .Apple) l then some (.Apple, l.drop 5)
  else none

/-- Modelled from the spec: `eval` of an item constructor expression
`Name((r, c))`. -/
def parseItem (l : List Char) : Option (PyItem × List Char) :=
  match parseItemName l with
  | none => none
  | some (nm, r) =>
    match r with
    | '(' :: r₁ =>
      match parseIntTuple r₁ with
      | some ([a, b], ')' :: r₂) => some (⟨nm, (a, b)⟩, r₂)
      | _ => none
    | _ => none

/-- Parses the remaining elements of an item list after the first element,
up to the closing bracket. -/
def parseItemListTail : Nat → List PyItem → List Char → Option (List PyItem × List Char)
  | 0, _, _ => none
  | fuel + 1, acc, l =>
    match l with
    | ',' :: ' ' :: r =>
      match parseItem r with
      | none => none
      | some (it, r') => parseItemListTail fuel (acc ++ [it]) r'
    | ']' :: r => some (acc, r)
    | _ => none

/-- Modelled from the spec: `eval` of a Python list of item constructor
expressions. -/
def parseItemList (l : List Char) : Option (List PyItem × List Char) :=
  match l with
  | '[' :: r =>
    if r.head? = some ']' then some ([], r.tail)
    else
      match parseItem r with
      | none => none
      | some (it, r₁) => parseItemListTail r₁.length [it] r₁
  | _ => none

/-- Parses one `(r, c): Name((r, c))` entry of the entity dictionary. -/
def parseEntEntry (l : List Char) : Option (((Int × Int) × PyItem) × List Char) :=
  match parseIntTuple l with
  | some ([a, b], ':' :: ' ' :: r) =>
    match parseItem r with
    | some (it, r') => some (((a, b), it), r')
    | none => none
  | _ => none

/-- Parses the remaining entries of the entity dictionary after the first,
up to the closing brace. -/
def parseEntTail : Nat → EntMap → List Char → Option (EntMap × List Char)
  | 0, _, _ => none
  | fuel + 1, acc, l =>
    match l with
    | ',' :: ' ' :: r =>
      match parseEntEntry r with
      | none => none
      | some (kv, r') => parseEntTail fuel (acc ++ [kv]) r'
    | c :: r => if c = rbChar then some (acc, r) else none
    | _ => none

/-- Modelled from the spec: `eval` of the entity-dictionary expression of
an `Entities` save line. -/
def parseEnt (l : List Char) : Option (EntMap × List Char) :=
  match l with
  | c :: r =>
    if c = lbChar then
      if r.head? = some rbChar then some ([], r.tail)
      else
        match parseEntEntry r with
        | none => none
        | some (kv, r₁) => parseEntTail r₁.length [kv] r₁
    else none
  | _ => none

/-- Parses a single-quoted Python string literal (no escapes). -/
def parseStrLit (l : List Char) : Option (List Char × List Char) :=
  match l with
  | c :: r =>
    if c = sqChar then
      let s := r.takeWhile (fun x => x ≠ sqChar)
      match r.dropWhile (fun x => x ≠ sqChar) with
      | c' :: r' => if c' = sqChar then some (s, r') else none
      | _ => none
    else none
  | _ => none

/-- Parses one `'Name': [items]` entry of the inventory dictionary. -/
def parseInvEntry (l : List Char) : Option ((List Char × List PyItem) × List Char) :=
  match parseStrLit l with
  | some (k, ':' :: ' ' :: r) =>
    match parseItemList r with
    | some (its, r') => some ((k, its), r')
    | none => none
  | _ => none

/-- Parses the remaining entries of the inventory dictionary after the
first, up to the closing brace. -/
def parseInvTail : Nat → InvMap → List Char → Option (InvMap × List Char)
  | 0, _, _ => none
  | fuel + 1, acc, l =>
    match l with
    | ',' :: ' ' :: r =>
      match parseInvEntry r with
      | none => none
      | some (kv, r') => parseInvTail fuel (acc ++ [kv]) r'
    | c :: r => if c = rbChar then some (acc, r) else none
    | _ => none

/-- Modelled from the spec: `eval` of the inventory-dictionary expression
of an `Inventory` save line. -/
def parseInv (l : List Char) : Option (InvMap × List Char) :=
  match l with
  | c :: r =>
    if c = lbChar then
      if r.head? = some rbChar then some ([], r.tail)
      else
        match parseInvEntry r with
        | none => none
        | some (kv, r₁) => parseInvTail r₁.length [kv] r₁
    else none
  | _ => none

/-- Modelled from the spec: `eval` of a complete expression — the parse
must consume the whole input, as Python's `eval` rejects trailing text. -/
def evalFull (p : List Char → Option (α × List Char)) (l : List Char) : Option α :=
  match p l with
  | some (v, []) => some v
  | _ => none

/-! ### `MazeRunnerFile.save` and `MazeRunnerFile.load` -/

/-- `MazeRunnerFile._save_formatting`: removes the requested characters
and appends a newline. -/
def saveFormatting (v : List Char) (removeChars : List Char) : List Char :=
  (v.filter (fun c => c ∉ removeChars)) ++ [nlChar]

/-- The seven records built by `MazeRunnerFile.save`, before newline
formatting; fails when the model's current level index is invalid
(`get_current_items` raises). -/
def saveLines (m : Model) (t : Int) : Option (List (List Char)) :=
  (pyIdx m.levels m.level_num).map fun lvl =>
    [ "Level ".data ++ reprInt m.level_num,
      "File ".data ++ m.game_file,
      "Entities ".data ++ reprEnt lvl.items,
      "Inventory ".data ++ reprInv m.player.inventory,
      "Stats ".data ++ reprIntTuple [m.player.health, m.player.hunger, m.player.thirst],
      "Position ".data ++ reprIntTuple m.player.position,
      "Time ".data ++ reprInt t ]

/-- `MazeRunnerFile.save`: the text written to the save file — the seven
records, each passed through `_save_formatting` and concatenated by
`writelines`. -/
def save (m : Model) (t : Int) : Option (List Char) :=
  (saveLines m t).map fun ls => (ls.map (fun l => saveFormatting l [])).flatten

/-- The local variables of `MazeRunnerFile.load`, with their Python
defaults (`0`, `""`, `{}`, `{}`, `()`, `()`, `0`). -/
structure LoadVars where
  level : Int
  game_file : List Char
  entities : EntMap
  inventory : InvMap
  stats : List Int
  position : List Int
  time : Int
  deriving DecidableEq, Repr

/-- The initial values of the `load` local variables. -/
def loadVars0 : LoadVars :=
  { level := 0, game_file := [], entities := [], inventory := [],
    stats := [], position := [], time := 0 }

/-- The per-line dispatch of `MazeRunnerFile.load`: the `elif` chain on
line prefixes, parsing with `int` for `Level`/`Time`, plain string
splitting for `File`, and `eval` for the remaining four records. -/
def loadStep (v : LoadVars) (line : List Char) : Option LoadVars :=
  if hasPre "Level".data line then
    (pyInt (headSp (line.drop 6))).map fun n => { v with level := n }
  else if hasPre "File".data line then
    some { v with game_file := headSp (line.drop 5) }
  else if hasPre "Entities".data line then
    (evalFull parseEnt (line.drop 9)).map fun e => { v with entities := e }
  else if hasPre "Inventory".data line then
    (evalFull parseInv (line.drop 10)).map fun e => { v with inventory := e }
  else if hasPre "Stats".data line then
    (evalFull parseIntTuple (line.drop 6)).map fun e => { v with stats := e }
  else if hasPre "Position".data line then
    (evalFull parseIntTuple (line.drop 9)).map fun e => { v with position := e }
  else if hasPre "Time ".data line then
    (pyInt (line.drop 5)).map fun n => { v with time := n }
  else some v

/-- The reconstruction phase of `MazeRunnerFile.load`: builds a fresh
`Model(game_file)` and overwrites its private fields with the parsed
values, then unlocks the door; fails where Python raises (missing game
file, too-short stats tuple, out-of-range level index). -/
def loadBuild (env : Env) (v : LoadVars) : Option (Model × Int) :=
  match modelCtor env v.game_file with
  | none => none
  | some m0 =>
    match v.stats.get? 0, v.stats.get? 1, v.stats.get? 2 with
    | some s0, some s1, some s2 =>
      match pyIdx m0.levels v.level with
      | none => none
      | some lvl =>
        match pySetIdx m0.levels v.level
            (attemptUnlockDoor { lvl with items := v.entities }) with
        | none => none
        | some levels' =>
          some ({ m0 with
                    player := { playerCtor v.position with
                                  inventory := v.inventory,
                                  health := s0, hunger := s1, thirst := s2 },
                    level_num := v.level,
                    levels := levels' }, v.time)
    | _, _, _ => none

/-- `MazeRunnerFile.load` applied to the given file content: splits into
lines, strips each, folds the `elif` dispatch, and reconstructs the
model. -/
def loadContent (env : Env) (content : List Char) : Option (Model × Int) :=
  match foldSteps loadStep loadVars0 ((splitCh nlChar content).map stripCh) with
  | none => none
  | some v => loadBuild env v

/-- `MazeRunnerFile.load` from a file path: reads the file through the
environment (raising when missing), then parses its content. -/
def loadFile (env : Env) (p : List Char) : Option (Model × Int) :=
  match env.fs p with
  | none => none
  | some c => loadContent env c

/-! ### The shape of the saved file content -/

/-- The seven text records of a saved game, in save order, as functions of
the model, the current level and the time. -/
def saveRecords (m : Model) (lvl : Level) (t : Int) : List (List Char) :=
  [ "Level ".data ++ reprInt m.level_num,
    "File ".data ++ m.game_file,
    "Entities ".data ++ reprEnt lvl.items,
    "Inventory ".data ++ reprInv m.player.inventory,
    "Stats ".data ++ reprIntTuple [m.player.health, m.player.hunger, m.player.thirst],
    "Position ".data ++ reprIntTuple m.player.position,
    "Time ".data ++ reprInt t ]

/-! ### Concrete fixtures for witnesses and counterexamples -/

/-- A small concrete level used by witnesses. -/
def lvlEx : Level := { items := [((0, 1), ⟨.Coin, (0, 1)⟩)], doorUnlocked := false }

/-- A small concrete player used by witnesses. -/
def playerEx : Player :=
  { position := [0, 0],
    inventory := [(['C', 'o', 'i', 'n'], [⟨.Coin, (1, 1)⟩]),
                  (['W', 'a', 't', 'e', 'r'], [⟨.Water, (2, 2)⟩])],
    health := 9, hunger := 1, thirst := 2 }

/-- A small concrete model used by witnesses. -/
def mEx : Model :=
  { game_file := "g1".data, level_num := 0, levels := [lvlEx], player := playerEx,
    hasWon := false, hasLost := false, didLevelUp := false }

/-- A concrete environment whose only maze file is `g1`. -/
def envEx : Env :=
  { fs := fun _ => none,
    loadGame := fun p =>
      if p = "g1".data then
        some ([{ items := [], doorUnlocked := false }], playerCtor [0, 0])
      else none }

/-- The witness model with a space in its game-file path. -/
def mSp : Model := { mEx with game_file := "a b".data }

/-- An environment in which the truncated path `a` still loads. -/
def envSp : Env :=
  { fs := fun _ => none,
    loadGame := fun p =>
      if p = "a".data then
        some ([{ items := [], doorUnlocked := false }], playerCtor [0, 0])
      else none }

/-- The counterexample model with a newline inside its game-file path. -/
def mNl : Model := { mEx with game_file := ['a', nlChar, 'b'] }

/-- A save-file content whose `Time` record is missing. -/
def c3content : List Char :=
  "Level 0\nFile g1\nEntities \x7b\x7d\nInventory \x7b\x7d\nStats (3, 4, 5)\nPosition (0, 0)\n".data

/-- A save-file content whose `Entities` record has an unparseable payload. -/
def c3bad : List Char := "Level 0\nEntities oops\n".data

/-! ### C3: what `load` requires of the save file -/

/-- A save line that carries one of the parsed record prefixes but whose
payload fails its parser (`eval` or `int`). -/
def badLine (l : List Char) : Prop :=
  (hasPre "Level".data l = true ∧ pyInt (headSp (l.drop 6)) = none) ∨
  (hasPre "Entities".data l = true ∧ evalFull parseEnt (l.drop 9) = none) ∨
  (hasPre "Inventory".data l = true ∧ evalFull parseInv (l.drop 10) = none) ∨
  (hasPre "Stats".data l = true ∧ evalFull parseIntTuple (l.drop 6) = none) ∨
  (hasPre "Position".data l = true ∧ evalFull parseIntTuple (l.drop 9) = none) ∨
  (hasPre "Time ".data l = true ∧ pyInt (l.drop 5) = none)

/-! ### The `ControlsFrame` timer -/

/-- Modelled from the spec: the timer-related state of `ControlsFrame`
together with the GUI toolkit's callback scheduler — `time` is `_time`,
`timerUpdate` is the `_timer_update` attribute (absent until the first
`_handle_timer` run), `scheduled` the toolkit's pending `after` callbacks
as (handle, delay-ms) pairs, and `nextHandle` the next fresh handle. -/
structure TimerState where
  time : Int
  timerUpdate : Option Nat
  scheduled : List (Nat × Nat)
  nextHandle : Nat
  deriving DecidableEq, Repr

/-- The timer state established by `ControlsFrame.__init__` (and `draw`):
time `0` and no `_timer_update` attribute. -/
def initTimer : TimerState :=
  { time := 0, timerUpdate := none, scheduled := [], nextHandle := 0 }

/-- `ControlsFrame._handle_timer`: displays the time, schedules exactly one
further invocation `1000` ms later (storing its handle in
`_timer_update`), and increments `_time` by one. -/
def handleTimer (s : TimerState) : TimerState :=
  { time := s.time + 1,
    timerUpdate := some s.nextHandle,
    scheduled := s.scheduled ++ [(s.nextHandle, 1000)],
    nextHandle := s.nextHandle + 1 }

/-- `ControlsFrame.start_timer`: runs `_handle_timer` immediately. -/
def startTimer (s : TimerState) : TimerState := handleTimer s

/-- `ControlsFrame.stop_timer`: cancels the callback whose handle is stored
in `_timer_update`; raises (`none`) when the attribute has never been
assigned. -/
def stopTimer (s : TimerState) : Option TimerState :=
  match s.timerUpdate with
  | none => none
  | some h => some { s with scheduled := s.scheduled.filter (fun e => e.1 ≠ h) }

/-- `ControlsFrame.get_time`. -/
def getTime (s : TimerState) : Int := s.time

/-- `ControlsFrame.set_time`: overwrites `_time`, cancels the pending
callback (raising when `_timer_update` was never assigned) and restarts
the timer. -/
def setTime (t : Int) (s : TimerState) : Option TimerState :=
  match s.timerUpdate with
  | none => none
  | some h =>
    some (startTimer { s with time := t, scheduled := s.scheduled.filter (fun e => e.1 ≠ h) })

/-- `ControlsFrame.reset_timer`: zeroes `_time`, cancels the pending
callback (raising when `_timer_update` was never assigned) and restarts
the timer. -/
def resetTimer (s : TimerState) : Option TimerState :=
  match s.timerUpdate with
  | none => none
  | some h =>
    some (startTimer { s with time := 0, scheduled := s.scheduled.filter (fun e => e.1 ≠ h) })

/-- Modelled from the spec: one event-loop tick of the toolkit — the
pending scheduled callback fires (it is removed from the queue) and runs
`_handle_timer` again. Applied to the fresh state it is the initial
`start_timer` call. -/
def fireTick (s : TimerState) : TimerState :=
  handleTimer { s with scheduled := s.scheduled.drop 1 }

/-- The timer state after `n` invocations of `_handle_timer` from a fresh
controls frame (the first invocation being the `start_timer` call). -/
def ticksFromStart (n : Nat) : TimerState := fireTick^[n] initTimer

/-- The timer states reachable once `start_timer` has run. -/
inductive TimerReach : TimerState → Prop where
  | start : TimerReach (startTimer initTimer)
  | tick {s} : TimerReach s → TimerReach (fireTick s)
  | stop {s s'} : TimerReach s → stopTimer s = some s' → TimerReach s'
  | set {s s'} (t : Int) : TimerReach s → setTime t s = some s' → TimerReach s'
  | reset {s s'} : TimerReach s → resetTimer s = some s' → TimerReach s'

/-! ### The `GraphicalMazeRunner` controller -/

/-- Modelled from the spec: the `MOVE_DELTAS` constant — the movement keys
and the grid deltas they map to. -/
def MOVE_DELTAS : List (Char × (Int × Int)) :=
  [('w', (-1, 0)), ('a', (0, -1)), ('s', (1, 0)), ('d', (0, 1))]

/-- `MOVE_DELTAS.get(move)`: the delta of a key, when it is a movement
key. -/
def lookupMove (c : Char) : Option (Int × Int) :=
  (MOVE_DELTAS.find? (fun p => p.1 = c)).map Prod.snd

/-- The controller state of `GraphicalMazeRunner`: its model, its game
file, and the timer state of its view's controls frame. -/
structure Ctl where
  model : Model
  game_file : List Char
  timer : TimerState
  deriving DecidableEq, Repr

/-- The externally visible view effects of one event-handler run: full
redraws, message-box dialogs, maze-dimension updates and timer stops. -/
structure Eff where
  redraws : Nat
  dialogs : List (List Char)
  dimSets : Nat
  timerStopped : Bool
  deriving DecidableEq, Repr

/-- No view effect. -/
def noEff : Eff := { redraws := 0, dialogs := [], dimSets := 0, timerStopped := false }

/-- Modelled from the spec: the `WIN_MESSAGE` constant. -/
def WIN_MESSAGE : List Char := "You win!".data

/-- Modelled from the spec: the `LOSS_MESSAGE` constant. -/
def LOSS_MESSAGE : List Char := "You lost!".data

/-- The generic dialog text of `_handle_load_game`'s except branch. -/
def selectValidMsg : List Char := "Select Valid File Type!".data

/-- `GraphicalMazeRunner._get_finished_state`. -/
def finishedState (m : Model) : Bool := m.hasWon || m.hasLost

/-- `GraphicalMazeRunner._handle_level_update` (with `TASK = 2`, as the
menu and timer of the examined program require): updates the maze
dimensions on level-up, stops the timer when the game has finished
(propagating the attribute error when the timer never started), shows the
win or loss message box and returns without redrawing, or redraws. -/
def handleLevelUpdate (st : Ctl) : Option (Ctl × Eff) :=
  let dims := if st.model.didLevelUp then 1 else 0
  if finishedState st.model then
    match stopTimer st.timer with
    | none => none
    | some tm =>
      let st' := { st with timer := tm }
      if st.model.hasWon then
        some (st', { redraws := 0, dialogs := [WIN_MESSAGE],
                     dimSets := dims, timerStopped := true })
      else
        some (st', { redraws := 0, dialogs := [LOSS_MESSAGE],
                     dimSets := dims, timerStopped := true })
  else
    some (st, { redraws := 1, dialogs := [], dimSets := dims, timerStopped := false })

/-- `GraphicalMazeRunner._handle_move`, parameterised by the external
model's `move_player` transition. -/
def handleMove (mv : Model → (Int × Int) → Model) (st : Ctl) (δ : Int × Int) :
    Option (Ctl × Eff) :=
  handleLevelUpdate { st with model := mv st.model δ }

/-- `GraphicalMazeRunner._handle_keypress`: moves only when the key is a
movement key and the game is not finished. -/
def handleKeypress (mv : Model → (Int × Int) → Model) (st : Ctl) (c : Char) :
    Option (Ctl × Eff) :=
  match lookupMove c with
  | some δ => if finishedState st.model then some (st, noEff) else handleMove mv st δ
  | none => some (st, noEff)

/-- `GraphicalMazeRunner._handle_load_game`: opens the chosen file, loads
it through `MazeRunnerFile.load`, and on success installs the new model
(`_create_new_game_model`: set model, update maze dimensions, reset the
timer, redraw) and sets the loaded time; any exception while loading shows
the generic dialog instead. -/
def handleLoadGame (env : Env) (st : Ctl) (path : Option (List Char)) : Ctl × Eff :=
  match path with
  | none => (st, noEff)
  | some p =>
    match loadFile env p with
    | none => (st, { noEff with dialogs := [selectValidMsg] })
    | some (m, t) =>
      let st₁ := { st with model := m }
      match resetTimer st₁.timer with
      | none => (st₁, { redraws := 0, dialogs := [selectValidMsg],
                        dimSets := 1, timerStopped := false })
      | some tm =>
        let st₂ := { st₁ with timer := tm }
        match setTime t st₂.timer with
        | none => (st₂, { redraws := 1, dialogs := [selectValidMsg],
                          dimSets := 1, timerStopped := false })
        | some tm' =>
          ({ st₂ with timer := tm' },
           { redraws := 1, dialogs := [], dimSets := 1, timerStopped := false })

/-! ### C5: failed loads are atomic -/

/-- A concrete controller state used by witnesses. -/
def ctlEx : Ctl :=
  { model := mEx, game_file := mEx.game_file, timer := startTimer initTimer }

/-! ### C7: keypress handling -/

/-- The move transition that wins the game on any move. -/
def mvWin : Model → (Int × Int) → Model := fun m _ => { m with hasWon := true }

/-! ### The view layer: `LevelView`, `StatsView`, `InventoryView` -/

/-- Modelled from the spec: the `PLAYER` entity ID constant. -/
def PLAYER : Char := 'O'

/-- Modelled from the spec: the `TILE_COLOURS` / `ENTITY_COLOURS` tables;
they are total maps from IDs to colours and their exact values are
irrelevant to the claims, so the ID itself stands for its colour. -/
def entityColour (i : Char) : Char := i

/-- Modelled from the spec: a maze of the external model — its (rows,
cols) dimensions and its grid of tile IDs. -/
structure Maze where
  dims : Nat × Nat
  tiles : List (List Char)
  deriving DecidableEq, Repr

/-- One primitive drawing operation issued to the abstract grid. -/
inductive DrawOp where
  | clear : DrawOp
  | rect : Nat × Nat → Char → DrawOp
  | oval : List Int → Char → DrawOp
  | annot : List Int → Char → DrawOp
  | annotText : Nat × Nat → List Char → DrawOp
  | annotVal : Nat × Nat → Int → DrawOp
  deriving DecidableEq, Repr

/-- Dictionary lookup in the entity map (`pos in items` / `items[pos]`). -/
def lookupEnt (k : Int × Int) : EntMap → Option PyItem
  | [] => none
  | kv :: rest => if kv.1 = k then some kv.2 else lookupEnt k rest

/-- `mapOpt f l` maps a fallible function over a list, failing when any
element fails (the embedding of a loop whose body may raise). -/
def mapOpt (f : α → Option β) : List α → Option (List β)
  | [] => some []
  | a :: as =>
    match f a, mapOpt f as with
    | some b, some bs => some (b :: bs)
    | _, _ => none

/-- The drawing operations of one maze cell in `LevelView.draw`: the tile
rectangle and, when an item sits at this position, its oval and
annotation (both at the item's own `get_position()`). Fails (raises) when
the tile grid has no entry for the cell. -/
def cellOps (tiles : List (List Char)) (items : EntMap) (r c : Nat) : Option (List DrawOp) :=
  match (tiles.get? r).bind (fun row => row.get? c) with
  | none => none
  | some tid =>
    some (DrawOp.rect (r, c) (entityColour tid) ::
      (match lookupEnt ((r : Int), (c : Int)) items with
       | some it => [DrawOp.oval [it.pos.1, it.pos.2] (entityColour (itemId it.name)),
                     DrawOp.annot [it.pos.1, it.pos.2] (itemId it.name)]
       | none => []))

/-- `LevelView.draw`: clears the grid, draws every cell of the view's
dimensions row by row, and draws the player last. -/
def levelViewDraw (dims : Nat × Nat) (tiles : List (List Char)) (items : EntMap)
    (ppos : List Int) : Option (List DrawOp) :=
  match mapOpt (fun rc => cellOps tiles items rc.1 rc.2)
      (((List.range dims.1).map
        (fun r => (List.range dims.2).map (fun c => (r, c)))).flatten) with
  | none => none
  | some ops =>
    some (DrawOp.clear :: ops.flatten ++
      [DrawOp.oval ppos (entityColour PLAYER), DrawOp.annot ppos PLAYER])

/-- Modelled from the spec: the `STATS_TEXT` header table of `StatsView`. -/
def STATS_TEXT (i : Nat) : List Char :=
  match i with
  | 0 => "HP".data
  | 1 => "Hunger".data
  | 2 => "Thirst".data
  | _ => []

/-- `StatsView._draw_stat_label`: the header annotation in row 0 and the
value annotation in row 1 of the stat's column. -/
def drawStatLabel (i : Nat) (txt : List Char) (v : Int) : List DrawOp :=
  [DrawOp.annotText (0, i) txt, DrawOp.annotVal (1, i) v]

/-- `StatsView.draw_stats`: the three survival stats in columns 0–2. -/
def drawStats (stats : Int × Int × Int) : List DrawOp :=
  drawStatLabel 0 (STATS_TEXT 0) stats.1 ++
  drawStatLabel 1 (STATS_TEXT 1) stats.2.1 ++
  drawStatLabel 2 (STATS_TEXT 2) stats.2.2

/-- `StatsView.draw_coins`: the coin count in column 3. -/
def drawCoins (n : Nat) : List DrawOp :=
  drawStatLabel 3 "Coins".data (n : Int)

/-- The dictionary key of coins in the inventory. -/
def coinKey : List Char := "Coin".data

/-- Dictionary lookup in the inventory map. -/
def lookupInv (k : List Char) : InvMap → Option (List PyItem)
  | [] => none
  | kv :: rest => if kv.1 = k then some kv.2 else lookupInv k rest

/-- The items of an inventory in dictionary iteration order (the nested
loop over `inventory.get_items().values()`). -/
def flattenInv (inv : InvMap) : List PyItem :=
  inv.foldr (fun kv acc => kv.2 ++ acc) []

/-- Modelled from the spec: `Inventory.add` of the external model — the
item is appended to the list under its class name, a new key being created
at the end of the dictionary. -/
def invAdd : InvMap → PyItem → InvMap
  | [], it => [(nameChars it.name, [it])]
  | (k, g) :: rest, it =>
    if k = nameChars it.name then (k, g ++ [it]) :: rest
    else (k, g) :: invAdd rest it

/-- Modelled from the spec: the `Inventory(initial_items)` constructor —
adds the given items in order to an empty inventory. -/
def mkInventory (l : List PyItem) : InvMap := l.foldl invAdd []

/-- The inventory-splitting logic of
`GraphicalInterface._draw_inventory`: when a `Coin` key is present, the
coin count is the length of its list and a separate `Inventory` is built
from all items whose `str` is not `COIN`; otherwise the inventory itself
is passed on with a coin count of zero. Returns the inventory passed to
the inventory view and the count passed to the stats view. -/
def drawInventorySplit (inv : InvMap) : InvMap × Nat :=
  match lookupInv coinKey inv with
  | some g =>
    (mkInventory ((flattenInv inv).filter (fun it => itemId it.name ≠ COIN_ID)),
     g.length)
  | none => (inv, 0)

/-- `InventoryView.draw_inventory`: one label per dictionary entry — name,
count and the colour of the entry's first item (raising when an entry's
list is empty). -/
def drawInventoryView (inv : InvMap) : Option (List (List Char × Nat × Char)) :=
  mapOpt (fun kv => (kv.2.head?).map
    (fun h => (kv.1, kv.2.length, entityColour (itemId h.name)))) inv

/-- `GraphicalInterface._draw_inventory`: splits off the coins, draws the
remaining inventory in the inventory view and the coin count in the stats
view. -/
def drawInventoryFull (inv : InvMap) :
    Option (List (List Char × Nat × Char) × List DrawOp) :=
  match drawInventoryView (drawInventorySplit inv).1 with
  | none => none
  | some labels => some (labels, drawCoins (drawInventorySplit inv).2)

/-- `GraphicalInterface.draw`, with the model data threaded through: the
second component is the state of the maze, entity map, inventory and
player stats after the call — the embedding of the fact that the call
only reads them. -/
def drawGUI (maze : Maze) (items : EntMap) (ppos : List Int) (inv : InvMap)
    (stats : Int × Int × Int) :
    Option ((List DrawOp × List DrawOp × List (List Char × Nat × Char) × List DrawOp) ×
            (Maze × EntMap × InvMap × (Int × Int × Int))) :=
  match levelViewDraw maze.dims maze.tiles items ppos with
  | none => none
  | some lv =>
    match drawInventoryFull inv with
    | none => none
    | some (labels, coinOps) =>
      some ((lv, drawStats stats, labels, coinOps), (maze, items, inv, stats))

/-! ### C8: the view layer is read-only over the model -/

/-- A concrete maze used by witnesses. -/
def mazeEx : Maze := { dims := (1, 2), tiles := [['W', ' ']] }

/-! ## Theorems -/

/-! #### Round-trip lemmas for decimal integers -/

theorem digitChar10_isDigit {d : Nat} (h : d < 10) : (digitChar10 d).isDigit = true := by
  interval_cases d <;> decide

theorem digitChar10_toNat {d : Nat} (h : d < 10) : (digitChar10 d).toNat = 48 + d := by
  interval_cases d <;> decide

theorem reprNatAux_digits {fuel n : Nat} (h : n < fuel) :
    ∀ c ∈ reprNatAux fuel n, c.isDigit = true := by
  induction fuel generalizing n with
  | zero => omega
  | succ fuel ih =>
    intro c hc
    simp only [reprNatAux] at hc
    by_cases h10 : n < 10
    · simp [h10] at hc
      subst hc
      exact digitChar10_isDigit h10
    · simp [h10, List.mem_append] at hc
      rcases hc with hc | hc
      · exact ih (by omega) c hc
      · subst hc
        exact digitChar10_isDigit (Nat.mod_lt _ (by omega))

theorem reprNatAux_ne_nil {fuel n : Nat} (h : n < fuel) :
    reprNatAux fuel n ≠ [] := by
  cases fuel with
  | zero => omega
  | succ fuel =>
    simp only [reprNatAux]
    by_cases h10 : n < 10 <;> simp [h10]

theorem digitsToNat_append_digit (l : List Char) (c : Char) :
    digitsToNat (l ++ [c]) = 10 * digitsToNat l + (c.toNat - 48) := by
  simp [digitsToNat, List.foldl_append]

theorem digitsToNat_reprNatAux {fuel n : Nat} (h : n < fuel) :
    digitsToNat (reprNatAux fuel n) = n := by
  induction fuel generalizing n with
  | zero => omega
  | succ fuel ih =>
    simp only [reprNatAux]
    by_cases h10 : n < 10
    · simp [h10, digitsToNat, digitChar10_toNat h10]
    · have hdiv : n / 10 < n := Nat.div_lt_self (by omega) (by omega)
      simp only [h10, if_false]
      rw [digitsToNat_append_digit, ih (by omega),
        digitChar10_toNat (Nat.mod_lt _ (by omega))]
      omega

theorem takeWhile_append_all {p : Char → Bool} {a : List Char}
    (h : ∀ c ∈ a, p c = true) (b : List Char) :
    (a ++ b).takeWhile p = a ++ b.takeWhile p := by
  induction a with
  | nil => simp
  | cons x xs ih =>
    have hx : p x = true := h x (by simp)
    simp [List.takeWhile, hx, ih (fun c hc => h c (by simp [hc]))]

theorem dropWhile_append_all {p : Char → Bool} {a : List Char}
    (h : ∀ c ∈ a, p c = true) (b : List Char) :
    (a ++ b).dropWhile p = b.dropWhile p := by
  induction a with
  | nil => simp
  | cons x xs ih =>
    have hx : p x = true := h x (by simp)
    simp [List.dropWhile, hx, ih (fun c hc => h c (by simp [hc]))]

theorem takeWhile_nil_of_head {p : Char → Bool} {b : List Char}
    (h : ∀ c, b.head? = some c → p c = false) : b.takeWhile p = [] := by
  cases b with
  | nil => rfl
  | cons x xs => simp [List.takeWhile, h x rfl]

theorem dropWhile_id_of_head {p : Char → Bool} {b : List Char}
    (h : ∀ c, b.head? = some c → p c = false) : b.dropWhile p = b := by
  cases b with
  | nil => rfl
  | cons x xs => simp [List.dropWhile, h x rfl]

theorem parseNat_reprNat (n : Nat) {rest : List Char} (h : digitSafe rest) :
    parseNat (reprNat n ++ rest) = some (n, rest) := by
  have hd := reprNatAux_digits (Nat.lt_succ_self n)
  have hne := reprNatAux_ne_nil (Nat.lt_succ_self n)
  simp only [parseNat, reprNat] at *
  rw [takeWhile_append_all hd, dropWhile_append_all hd,
    takeWhile_nil_of_head h, dropWhile_id_of_head h]
  simp [List.isEmpty_iff, hne, digitsToNat_reprNatAux (Nat.lt_succ_self n)]

theorem reprNat_head_digit (n : Nat) :
    ∀ c, (reprNat n).head? = some c → c.isDigit = true := by
  intro c hc
  have hne := reprNatAux_ne_nil (Nat.lt_succ_self n)
  have hd := @reprNatAux_digits (n + 1) n (Nat.lt_succ_self n)
  cases hh : reprNatAux (n + 1) n with
  | nil => exact absurd hh hne
  | cons x xs =>
    simp only [reprNat, hh, List.head?] at hc
    exact hd c (by simp [hh, ← Option.some_inj.mp hc])

theorem parseInt_reprInt (i : Int) {rest : List Char} (h : digitSafe rest) :
    parseInt (reprInt i ++ rest) = some (i, rest) := by
  by_cases hneg : i < 0
  · simp only [reprInt, hneg, if_true, List.cons_append, parseInt]
    have ht : ('-' = '-') = True := by simp
    simp only [ht, if_true, parseNat_reprNat _ h, Option.map_some']
    have hi : (((-i).toNat : Nat) : Int) = -i := by omega
    simp [hi]
  · simp only [reprInt, hneg, if_false]
    obtain ⟨c, cs, hcs⟩ : ∃ c cs, reprNat i.toNat = c :: cs := by
      cases hh : reprNat i.toNat with
      | nil => exact absurd hh (reprNatAux_ne_nil (Nat.lt_succ_self _))
      | cons c cs => exact ⟨c, cs, rfl⟩
    have hcdig : c.isDigit = true := reprNat_head_digit i.toNat c (by simp [hcs])
    have hc1 : c ≠ '-' := by
      intro hh; subst hh; simp [Char.isDigit] at hcdig
    have hc2 : c ≠ '+' := by
      intro hh; subst hh; simp [Char.isDigit] at hcdig
    rw [hcs]
    simp only [List.cons_append, parseInt, hc1, hc2, if_false]
    rw [← List.cons_append, ← hcs, parseNat_reprNat _ h]
    simp
    omega

theorem reprNatAux_no_ws {fuel n : Nat} (h : n < fuel) :
    ∀ c ∈ reprNatAux fuel n, c.isWhitespace = false := by
  induction fuel generalizing n with
  | zero => omega
  | succ fuel ih =>
    intro c hc
    simp only [reprNatAux] at hc
    by_cases h10 : n < 10
    · simp [h10] at hc
      subst hc
      interval_cases n <;> decide
    · simp [h10, List.mem_append] at hc
      rcases hc with hc | hc
      · have hdiv : n / 10 < n := Nat.div_lt_self (by omega) (by omega)
        exact ih (by omega) c hc
      · subst hc
        have hm : n % 10 < 10 := Nat.mod_lt _ (by omega)
        set d := n % 10 with hd
        interval_cases d <;> decide

theorem reprNat_no_ws (n : Nat) : ∀ c ∈ reprNat n, c.isWhitespace = false :=
  reprNatAux_no_ws (Nat.lt_succ_self n)

theorem reprInt_no_ws (i : Int) : ∀ c ∈ reprInt i, c.isWhitespace = false := by
  intro c hc
  by_cases hneg : i < 0
  · simp [reprInt, hneg] at hc
    rcases hc with hc | hc
    · subst hc; decide
    · exact reprNat_no_ws _ c hc
  · simp [reprInt, hneg] at hc
    exact reprNat_no_ws _ c hc

theorem dropWhile_all_false {p : Char → Bool} {l : List Char}
    (h : ∀ c ∈ l, p c = false) : l.dropWhile p = l := by
  cases l with
  | nil => rfl
  | cons x xs => simp [List.dropWhile, h x (by simp)]

theorem stripCh_of_no_ws {l : List Char}
    (h : ∀ c ∈ l, c.isWhitespace = false) : stripCh l = l := by
  unfold stripCh
  rw [dropWhile_all_false h, dropWhile_all_false (by
    intro c hc
    exact h c (List.mem_reverse.mp hc))]
  simp

theorem pyInt_reprInt (i : Int) : pyInt (reprInt i) = some i := by
  have hws : ∀ c ∈ reprInt i, c.isWhitespace = false := reprInt_no_ws i
  unfold pyInt
  rw [stripCh_of_no_ws hws]
  have := @parseInt_reprInt i [] (by intro c hc; simp at hc)
  rw [List.append_nil] at this
  rw [this]

/-! ### Round-trip lemmas for the payload parsers -/

theorem digitSafe_head {c : Char} (h : c.isDigit = false) (l : List Char) :
    digitSafe (c :: l) := by
  intro x hx
  simp only [List.head?] at hx
  cases hx
  exact h

theorem reprInt_ne_nil (i : Int) : reprInt i ≠ [] := by
  unfold reprInt
  by_cases h : i < 0 <;> simp [h, reprNat, reprNatAux_ne_nil (Nat.lt_succ_self _)]

theorem reprInt_head (i : Int) :
    ∀ c, (reprInt i).head? = some c → (c.isDigit = true ∨ c = '-') := by
  intro c hc
  unfold reprInt at hc
  by_cases h : i < 0
  · simp only [h, if_true, List.head?_cons, Option.some.injEq] at hc
    right
    exact hc.symm
  · simp only [h, if_false] at hc
    left
    exact reprNat_head_digit _ c hc

theorem reprInt_head_ne {i : Int} {c : Char} (hc : (reprInt i).head? = some c) :
    c ≠ ')' ∧ c ≠ ']' ∧ c ≠ rbChar ∧ c ≠ sqChar := by
  rcases reprInt_head i c hc with h | h
  · refine ⟨?_, ?_, ?_, ?_⟩ <;> intro hh <;> subst hh <;> exact absurd h (by decide)
  · subst h
    refine ⟨by decide, by decide, by decide, by decide⟩

theorem hasPre_append (p r : List Char) : hasPre p (p ++ r) = true := by
  induction p with
  | nil => rfl
  | cons x xs ih => simp [hasPre, ih]

theorem head?_append_of_ne_nil {l : List Char} (h : l ≠ []) (r : List Char) :
    (l ++ r).head? = l.head? := by
  cases l with
  | nil => exact absurd rfl h
  | cons x xs => rfl

theorem reprTupTail_cons (y : Int) (ys : List Int) :
    reprTupTail (y :: ys) = ',' :: ' ' :: (reprInt y ++ reprTupTail ys) := by
  simp [reprTupTail]

theorem reprTupTail_head_safe (ys : List Int) (rest : List Char) :
    digitSafe (reprTupTail ys ++ rest) := by
  cases ys with
  | nil => exact digitSafe_head (by decide) _
  | cons y ys =>
    rw [reprTupTail_cons]
    exact digitSafe_head (by decide) _

theorem reprTupTail_length_pos (ys : List Int) : 0 < (reprTupTail ys).length := by
  cases ys with
  | nil => simp [reprTupTail]
  | cons y ys => rw [reprTupTail_cons]; simp

theorem parseIntTupleTail_repr (ys : List Int) :
    ∀ (fuel : Nat) (acc : List Int) (rest : List Char),
      (reprTupTail ys).length ≤ fuel →
      parseIntTupleTail fuel acc (reprTupTail ys ++ rest) = some (acc ++ ys, rest) := by
  induction ys with
  | nil =>
    intro fuel acc rest hf
    have h1 : (reprTupTail []).length = 1 := by simp [reprTupTail]
    rw [h1] at hf
    cases fuel with
    | zero => omega
    | succ f =>
      show parseIntTupleTail (f + 1) acc (')' :: rest) = some (acc ++ [], rest)
      simp [parseIntTupleTail]
  | cons y ys ih =>
    intro fuel acc rest hf
    rw [reprTupTail_cons] at hf ⊢
    cases fuel with
    | zero => simp at hf
    | succ f =>
      have hpi : parseInt (reprInt y ++ (reprTupTail ys ++ rest)) =
          some (y, reprTupTail ys ++ rest) :=
        parseInt_reprInt y (reprTupTail_head_safe ys rest)
      have hstep : (',' :: ' ' :: (reprInt y ++ reprTupTail ys)) ++ rest =
          ',' :: ' ' :: (reprInt y ++ (reprTupTail ys ++ rest)) := by
        simp [List.append_assoc]
      rw [hstep]
      have hlen : (reprTupTail ys).length ≤ f := by
        have hp : 0 < (reprInt y).length := List.length_pos.mpr (reprInt_ne_nil y)
        simp only [List.length_cons, List.length_append] at hf
        omega
      simp only [parseIntTupleTail, hpi]
      rw [ih f (acc ++ [y]) rest hlen]
      simp

theorem parseIntTuple_repr (xs : List Int) (rest : List Char) :
    parseIntTuple (reprIntTuple xs ++ rest) = some (xs, rest) := by
  match xs with
  | [] => simp [reprIntTuple, parseIntTuple]
  | [a] =>
    have hstep : (reprIntTuple [a]) ++ rest =
        '(' :: (reprInt a ++ (',' :: ')' :: rest)) := by
      simp [reprIntTuple]
    rw [hstep]
    obtain ⟨c, hc⟩ : ∃ c, (reprInt a).head? = some c := by
      cases hh : reprInt a with
      | nil => exact absurd hh (reprInt_ne_nil a)
      | cons x xsl => exact ⟨x, rfl⟩
    have hcne : c ≠ ')' := (reprInt_head_ne hc).1
    have hh : (reprInt a ++ (',' :: ')' :: rest)).head? = some c := by
      rw [head?_append_of_ne_nil (reprInt_ne_nil a)]; exact hc
    have hpi : parseInt (reprInt a ++ (',' :: ')' :: rest)) =
        some (a, ',' :: ')' :: rest) :=
      parseInt_reprInt a (digitSafe_head (by decide) _)
    simp only [parseIntTuple, hh, hpi]
    rw [if_neg (by simp [hcne])]
    simp [parseIntTupleTail]
  | a :: b :: xs' =>
    have hstep : (reprIntTuple (a :: b :: xs')) ++ rest =
        '(' :: (reprInt a ++ (reprTupTail (b :: xs') ++ rest)) := by
      simp [reprIntTuple]
    rw [hstep]
    obtain ⟨c, hc⟩ : ∃ c, (reprInt a).head? = some c := by
      cases hh : reprInt a with
      | nil => exact absurd hh (reprInt_ne_nil a)
      | cons x xsl => exact ⟨x, rfl⟩
    have hcne : c ≠ ')' := (reprInt_head_ne hc).1
    have hh : (reprInt a ++ (reprTupTail (b :: xs') ++ rest)).head? = some c := by
      rw [head?_append_of_ne_nil (reprInt_ne_nil a)]; exact hc
    have hpi : parseInt (reprInt a ++ (reprTupTail (b :: xs') ++ rest)) =
        some (a, reprTupTail (b :: xs') ++ rest) :=
      parseInt_reprInt a (reprTupTail_head_safe _ _)
    simp only [parseIntTuple, hh, hpi]
    rw [if_neg (by simp [hcne])]
    rw [parseIntTupleTail_repr (b :: xs') _ [a] rest (by simp)]
    simp

theorem parseItemName_repr (nm : ItemName) (rest : List Char) :
    parseItemName (nameChars nm ++ rest) = some (nm, rest) := by
  cases nm <;> simp [parseItemName, nameChars, hasPre, List.drop]

theorem ne_nil_of_head_some {l : List Char} {c : Char} (h : l.head? = some c) :
    l ≠ [] := by
  cases l <;> simp at h ⊢

theorem reprItem_head (it : PyItem) :
    ∃ c, (reprItem it).head? = some c ∧ c ≠ ']' ∧ c ≠ ')' ∧ c ≠ rbChar ∧ c ≠ ',' := by
  cases hnm : it.name with
  | Coin =>
    refine ⟨'C', ?_, by decide, by decide, by decide, by decide⟩
    simp [reprItem, hnm, nameChars]
  | Potion =>
    refine ⟨'P', ?_, by decide, by decide, by decide, by decide⟩
    simp [reprItem, hnm, nameChars]
  | Water =>
    refine ⟨'W', ?_, by decide, by decide, by decide, by decide⟩
    simp [reprItem, hnm, nameChars]
  | Honey =>
    refine ⟨'H', ?_, by decide, by decide, by decide, by decide⟩
    simp [reprItem, hnm, nameChars]
  | Apple =>
    refine ⟨'A', ?_, by decide, by decide, by decide, by decide⟩
    simp [reprItem, hnm, nameChars]

theorem parseItem_repr (it : PyItem) (rest : List Char) :
    parseItem (reprItem it ++ rest) = some (it, rest) := by
  have hstep : reprItem it ++ rest =
      nameChars it.name ++ ('(' :: (reprIntTuple [it.pos.1, it.pos.2] ++ (')' :: rest))) := by
    simp [reprItem]
  rw [hstep]
  simp only [parseItem, parseItemName_repr, parseIntTuple_repr]

theorem reprListTail_cons (it : PyItem) (its : List PyItem) :
    reprListTail (it :: its) = ',' :: ' ' :: (reprItem it ++ reprListTail its) := by
  simp [reprListTail]

theorem parseItemListTail_repr (its : List PyItem) :
    ∀ (fuel : Nat) (acc : List PyItem) (rest : List Char),
      (reprListTail its).length ≤ fuel →
      parseItemListTail fuel acc (reprListTail its ++ rest) = some (acc ++ its, rest) := by
  induction its with
  | nil =>
    intro fuel acc rest hf
    have h1 : (reprListTail []).length = 1 := by simp [reprListTail]
    rw [h1] at hf
    cases fuel with
    | zero => omega
    | succ f =>
      show parseItemListTail (f + 1) acc (']' :: rest) = some (acc ++ [], rest)
      simp [parseItemListTail]
  | cons it its ih =>
    intro fuel acc rest hf
    rw [reprListTail_cons] at hf ⊢
    cases fuel with
    | zero => simp at hf
    | succ f =>
      have hstep : (',' :: ' ' :: (reprItem it ++ reprListTail its)) ++ rest =
          ',' :: ' ' :: (reprItem it ++ (reprListTail its ++ rest)) := by
        simp [List.append_assoc]
      rw [hstep]
      have hlen : (reprListTail its).length ≤ f := by
        obtain ⟨c, hc, -⟩ := reprItem_head it
        have hp : 0 < (reprItem it).length :=
          List.length_pos.mpr (ne_nil_of_head_some hc)
        simp only [List.length_cons, List.length_append] at hf
        omega
      simp only [parseItemListTail, parseItem_repr]
      rw [ih f (acc ++ [it]) rest hlen]
      simp

theorem parseItemList_repr (its : List PyItem) (rest : List Char) :
    parseItemList (reprItemList its ++ rest) = some (its, rest) := by
  match its with
  | [] => simp [reprItemList, parseItemList]
  | it :: its' =>
    have hstep : reprItemList (it :: its') ++ rest =
        '[' :: (reprItem it ++ (reprListTail its' ++ rest)) := by
      simp [reprItemList]
    rw [hstep]
    obtain ⟨c, hc, hne1, -, -, -⟩ := reprItem_head it
    have hh : (reprItem it ++ (reprListTail its' ++ rest)).head? = some c := by
      rw [head?_append_of_ne_nil (ne_nil_of_head_some hc)]; exact hc
    simp only [parseItemList, hh, parseItem_repr]
    rw [if_neg (by simp [hne1])]
    rw [parseItemListTail_repr its' _ [it] rest (by simp)]
    simp

theorem reprIntTuple_head (xs : List Int) :
    ∃ cs, reprIntTuple xs = '(' :: cs := by
  match xs with
  | [] => exact ⟨_, rfl⟩
  | [a] => exact ⟨_, rfl⟩
  | a :: b :: xs' => exact ⟨_, rfl⟩

theorem parseEntEntry_repr (kv : (Int × Int) × PyItem) (rest : List Char) :
    parseEntEntry (reprEntEntry kv ++ rest) = some (kv, rest) := by
  have hstep : reprEntEntry kv ++ rest =
      reprIntTuple [kv.1.1, kv.1.2] ++ (':' :: ' ' :: (reprItem kv.2 ++ rest)) := by
    simp [reprEntEntry]
  rw [hstep]
  simp only [parseEntEntry, parseIntTuple_repr, parseItem_repr]

theorem reprEntEntry_head (kv : (Int × Int) × PyItem) :
    ∃ cs, reprEntEntry kv = '(' :: cs := by
  obtain ⟨cs, hcs⟩ := reprIntTuple_head [kv.1.1, kv.1.2]
  exact ⟨cs ++ ':' :: ' ' :: reprItem kv.2, by simp [reprEntEntry, hcs]⟩

theorem reprEntTail_cons (kv : (Int × Int) × PyItem) (kvs : EntMap) :
    reprEntTail (kv :: kvs) = ',' :: ' ' :: (reprEntEntry kv ++ reprEntTail kvs) := by
  simp [reprEntTail]

theorem parseEntTail_repr (kvs : EntMap) :
    ∀ (fuel : Nat) (acc : EntMap) (rest : List Char),
      (reprEntTail kvs).length ≤ fuel →
      parseEntTail fuel acc (reprEntTail kvs ++ rest) = some (acc ++ kvs, rest) := by
  induction kvs with
  | nil =>
    intro fuel acc rest hf
    have h1 : (reprEntTail []).length = 1 := by simp [reprEntTail]
    rw [h1] at hf
    cases fuel with
    | zero => omega
    | succ f =>
      show parseEntTail (f + 1) acc (rbChar :: rest) = some (acc ++ [], rest)
      have hred : parseEntTail (f + 1) acc (rbChar :: rest) = some (acc, rest) := rfl
      rw [hred]
      simp
  | cons kv kvs ih =>
    intro fuel acc rest hf
    rw [reprEntTail_cons] at hf ⊢
    cases fuel with
    | zero => simp at hf
    | succ f =>
      have hstep : (',' :: ' ' :: (reprEntEntry kv ++ reprEntTail kvs)) ++ rest =
          ',' :: ' ' :: (reprEntEntry kv ++ (reprEntTail kvs ++ rest)) := by
        simp [List.append_assoc]
      rw [hstep]
      have hlen : (reprEntTail kvs).length ≤ f := by
        obtain ⟨cs, hcs⟩ := reprEntEntry_head kv
        have hp : 0 < (reprEntEntry kv).length := by simp [hcs]
        simp only [List.length_cons, List.length_append] at hf
        omega
      simp only [parseEntTail, parseEntEntry_repr]
      rw [ih f (acc ++ [kv]) rest hlen]
      simp

theorem parseEnt_repr (kvs : EntMap) (rest : List Char) :
    parseEnt (reprEnt kvs ++ rest) = some (kvs, rest) := by
  match kvs with
  | [] => simp [reprEnt, parseEnt]
  | kv :: kvs' =>
    have hstep : reprEnt (kv :: kvs') ++ rest =
        lbChar :: (reprEntEntry kv ++ (reprEntTail kvs' ++ rest)) := by
      simp [reprEnt]
    rw [hstep]
    obtain ⟨cs, hcs⟩ := reprEntEntry_head kv
    have hh : (reprEntEntry kv ++ (reprEntTail kvs' ++ rest)).head? = some '(' := by
      rw [head?_append_of_ne_nil (by simp [hcs])]; simp [hcs]
    have h1 : parseEnt (lbChar :: (reprEntEntry kv ++ (reprEntTail kvs' ++ rest))) =
        if (reprEntEntry kv ++ (reprEntTail kvs' ++ rest)).head? = some rbChar then
          some ([], (reprEntEntry kv ++ (reprEntTail kvs' ++ rest)).tail)
        else
          match parseEntEntry (reprEntEntry kv ++ (reprEntTail kvs' ++ rest)) with
          | none => none
          | some (e, r₁) => parseEntTail r₁.length [e] r₁ := rfl
    rw [h1, hh, if_neg (by decide)]
    simp only [parseEntEntry_repr]
    rw [parseEntTail_repr kvs' _ [kv] rest (by simp)]
    simp

theorem parseStrLit_repr {k : List Char} (hk : sqChar ∉ k) (rest : List Char) :
    parseStrLit (sqChar :: (k ++ sqChar :: rest)) = some (k, rest) := by
  have htw : (k ++ sqChar :: rest).takeWhile (fun x => x ≠ sqChar) = k := by
    rw [takeWhile_append_all (by
      intro c hc
      simp only [ne_eq, decide_eq_true_eq]
      intro hh; subst hh; exact hk hc) _]
    simp [List.takeWhile]
  have hdw : (k ++ sqChar :: rest).dropWhile (fun x => x ≠ sqChar) = sqChar :: rest := by
    rw [dropWhile_append_all (by
      intro c hc
      simp only [ne_eq, decide_eq_true_eq]
      intro hh; subst hh; exact hk hc) _]
    simp [List.dropWhile]
  simp only [parseStrLit, htw, hdw]
  simp

theorem parseInvEntry_repr {kv : List Char × List PyItem} (hk : sqChar ∉ kv.1)
    (rest : List Char) :
    parseInvEntry (reprInvEntry kv ++ rest) = some (kv, rest) := by
  have hstep : reprInvEntry kv ++ rest =
      sqChar :: (kv.1 ++ sqChar :: (':' :: ' ' :: (reprItemList kv.2 ++ rest))) := by
    simp [reprInvEntry]
  rw [hstep]
  simp only [parseInvEntry, parseStrLit_repr hk, parseItemList_repr]

theorem reprInvEntry_head (kv : List Char × List PyItem) :
    ∃ cs, reprInvEntry kv = sqChar :: cs :=
  ⟨kv.1 ++ sqChar :: ':' :: ' ' :: reprItemList kv.2, rfl⟩

theorem reprInvTail_cons (kv : List Char × List PyItem) (kvs : InvMap) :
    reprInvTail (kv :: kvs) = ',' :: ' ' :: (reprInvEntry kv ++ reprInvTail kvs) := by
  simp [reprInvTail]

theorem parseInvTail_repr (kvs : InvMap) (hks : ∀ kv ∈ kvs, sqChar ∉ kv.1) :
    ∀ (fuel : Nat) (acc : InvMap) (rest : List Char),
      (reprInvTail kvs).length ≤ fuel →
      parseInvTail fuel acc (reprInvTail kvs ++ rest) = some (acc ++ kvs, rest) := by
  induction kvs with
  | nil =>
    intro fuel acc rest hf
    have h1 : (reprInvTail []).length = 1 := by simp [reprInvTail]
    rw [h1] at hf
    cases fuel with
    | zero => omega
    | succ f =>
      show parseInvTail (f + 1) acc (rbChar :: rest) = some (acc ++ [], rest)
      have hred : parseInvTail (f + 1) acc (rbChar :: rest) = some (acc, rest) := rfl
      rw [hred]
      simp
  | cons kv kvs ih =>
    intro fuel acc rest hf
    rw [reprInvTail_cons] at hf ⊢
    cases fuel with
    | zero => simp at hf
    | succ f =>
      have hstep : (',' :: ' ' :: (reprInvEntry kv ++ reprInvTail kvs)) ++ rest =
          ',' :: ' ' :: (reprInvEntry kv ++ (reprInvTail kvs ++ rest)) := by
        simp [List.append_assoc]
      rw [hstep]
      have hlen : (reprInvTail kvs).length ≤ f := by
        obtain ⟨cs, hcs⟩ := reprInvEntry_head kv
        have hp : 0 < (reprInvEntry kv).length := by simp [hcs]
        simp only [List.length_cons, List.length_append] at hf
        omega
      simp only [parseInvTail, parseInvEntry_repr (hks kv (by simp))]
      rw [ih (fun x hx => hks x (by simp [hx])) f (acc ++ [kv]) rest hlen]
      simp

theorem parseInv_repr (kvs : InvMap) (hks : ∀ kv ∈ kvs, sqChar ∉ kv.1)
    (rest : List Char) :
    parseInv (reprInv kvs ++ rest) = some (kvs, rest) := by
  match kvs with
  | [] => simp [reprInv, parseInv]
  | kv :: kvs' =>
    have hstep : reprInv (kv :: kvs') ++ rest =
        lbChar :: (reprInvEntry kv ++ (reprInvTail kvs' ++ rest)) := by
      simp [reprInv]
    rw [hstep]
    obtain ⟨cs, hcs⟩ := reprInvEntry_head kv
    have hh : (reprInvEntry kv ++ (reprInvTail kvs' ++ rest)).head? = some sqChar := by
      rw [head?_append_of_ne_nil (by simp [hcs])]; simp [hcs]
    have h1 : parseInv (lbChar :: (reprInvEntry kv ++ (reprInvTail kvs' ++ rest))) =
        if (reprInvEntry kv ++ (reprInvTail kvs' ++ rest)).head? = some rbChar then
          some ([], (reprInvEntry kv ++ (reprInvTail kvs' ++ rest)).tail)
        else
          match parseInvEntry (reprInvEntry kv ++ (reprInvTail kvs' ++ rest)) with
          | none => none
          | some (e, r₁) => parseInvTail r₁.length [e] r₁ := rfl
    rw [h1, hh, if_neg (by decide)]
    simp only [parseInvEntry_repr (hks kv (by simp))]
    rw [parseInvTail_repr kvs' (fun x hx => hks x (by simp [hx])) _ [kv] rest (by simp)]
    simp

theorem evalFull_parseEnt (kvs : EntMap) : evalFull parseEnt (reprEnt kvs) = some kvs := by
  have := parseEnt_repr kvs []
  rw [List.append_nil] at this
  simp [evalFull, this]

theorem evalFull_parseInv (kvs : InvMap) (hks : ∀ kv ∈ kvs, sqChar ∉ kv.1) :
    evalFull parseInv (reprInv kvs) = some kvs := by
  have := parseInv_repr kvs hks []
  rw [List.append_nil] at this
  simp [evalFull, this]

theorem evalFull_parseIntTuple (xs : List Int) :
    evalFull parseIntTuple (reprIntTuple xs) = some xs := by
  have := parseIntTuple_repr xs []
  rw [List.append_nil] at this
  simp [evalFull, this]

/-! ### Newline-freedom and strip lemmas for the save lines -/

theorem not_nl_of_digit {c : Char} (h : c.isDigit = true) : c ≠ nlChar := by
  intro hh
  subst hh
  exact absurd h (by decide)

theorem noNl_reprInt (i : Int) : nlChar ∉ reprInt i := by
  intro hmem
  by_cases h : i < 0
  · simp [reprInt, h] at hmem
    rcases hmem with hmem | hmem
    · exact absurd hmem.symm (by decide)
    · exact absurd rfl (not_nl_of_digit (reprNatAux_digits (Nat.lt_succ_self _) _ hmem))
  · simp [reprInt, h] at hmem
    exact absurd rfl (not_nl_of_digit (reprNatAux_digits (Nat.lt_succ_self _) _ hmem))

theorem noNl_reprTupTail (ys : List Int) : nlChar ∉ reprTupTail ys := by
  induction ys with
  | nil => simp [reprTupTail]; decide
  | cons y ys ih =>
    rw [reprTupTail_cons]
    intro hmem
    simp at hmem
    rcases hmem with hmem | hmem | hmem | hmem
    · exact absurd hmem (by decide)
    · exact absurd hmem (by decide)
    · exact noNl_reprInt y hmem
    · exact ih hmem

theorem noNl_reprIntTuple (xs : List Int) : nlChar ∉ reprIntTuple xs := by
  match xs with
  | [] => simp [reprIntTuple]; decide
  | [a] =>
    simp [reprIntTuple]
    exact ⟨by decide, noNl_reprInt a, by decide, by decide⟩
  | a :: b :: xs' =>
    simp [reprIntTuple]
    exact ⟨by decide, noNl_reprInt a, noNl_reprTupTail _⟩

theorem noNl_nameChars (nm : ItemName) : nlChar ∉ nameChars nm := by
  cases nm <;> decide

theorem noNl_reprItem (it : PyItem) : nlChar ∉ reprItem it := by
  simp [reprItem]
  exact ⟨noNl_nameChars _, by decide, noNl_reprIntTuple _, by decide⟩

theorem noNl_reprListTail (its : List PyItem) : nlChar ∉ reprListTail its := by
  induction its with
  | nil => simp [reprListTail]; decide
  | cons it its ih =>
    rw [reprListTail_cons]
    intro hmem
    simp at hmem
    rcases hmem with hmem | hmem | hmem | hmem
    · exact absurd hmem (by decide)
    · exact absurd hmem (by decide)
    · exact noNl_reprItem it hmem
    · exact ih hmem

theorem noNl_reprItemList (its : List PyItem) : nlChar ∉ reprItemList its := by
  match its with
  | [] => simp [reprItemList]; decide
  | it :: its' =>
    simp [reprItemList]
    exact ⟨by decide, noNl_reprItem it, noNl_reprListTail _⟩

theorem noNl_reprEntEntry (kv : (Int × Int) × PyItem) : nlChar ∉ reprEntEntry kv := by
  simp [reprEntEntry]
  exact ⟨noNl_reprIntTuple _, by decide, by decide, noNl_reprItem _⟩

theorem noNl_reprEntTail (kvs : EntMap) : nlChar ∉ reprEntTail kvs := by
  induction kvs with
  | nil => simp [reprEntTail]; decide
  | cons kv kvs ih =>
    rw [reprEntTail_cons]
    intro hmem
    simp at hmem
    rcases hmem with hmem | hmem | hmem | hmem
    · exact absurd hmem (by decide)
    · exact absurd hmem (by decide)
    · exact noNl_reprEntEntry kv hmem
    · exact ih hmem

theorem noNl_reprEnt (kvs : EntMap) : nlChar ∉ reprEnt kvs := by
  match kvs with
  | [] => simp [reprEnt]; decide
  | kv :: kvs' =>
    simp [reprEnt]
    exact ⟨by decide, noNl_reprEntEntry kv, noNl_reprEntTail _⟩

theorem noNl_reprInvEntry {kv : List Char × List PyItem} (hk : nlChar ∉ kv.1) :
    nlChar ∉ reprInvEntry kv := by
  simp [reprInvEntry]
  exact ⟨by decide, hk, by decide, by decide, by decide, noNl_reprItemList _⟩

theorem noNl_reprInvTail {kvs : InvMap} (hks : ∀ kv ∈ kvs, nlChar ∉ kv.1) :
    nlChar ∉ reprInvTail kvs := by
  induction kvs with
  | nil => simp [reprInvTail]; decide
  | cons kv kvs ih =>
    rw [reprInvTail_cons]
    intro hmem
    simp at hmem
    rcases hmem with hmem | hmem | hmem | hmem
    · exact absurd hmem (by decide)
    · exact absurd hmem (by decide)
    · exact noNl_reprInvEntry (hks kv (by simp)) hmem
    · exact ih (fun x hx => hks x (by simp [hx])) hmem

theorem noNl_reprInv {kvs : InvMap} (hks : ∀ kv ∈ kvs, nlChar ∉ kv.1) :
    nlChar ∉ reprInv kvs := by
  match kvs with
  | [] => simp [reprInv]; decide
  | kv :: kvs' =>
    simp [reprInv]
    exact ⟨by decide, noNl_reprInvEntry (hks kv (by simp)),
      noNl_reprInvTail (fun x hx => hks x (by simp [hx]))⟩

/-! ### Line splitting and stripping of the save content -/

theorem noNl_append {a b : List Char} (ha : nlChar ∉ a) (hb : nlChar ∉ b) :
    nlChar ∉ a ++ b := by
  intro h
  rcases List.mem_append.mp h with h | h
  · exact ha h
  · exact hb h

theorem splitCh_append {a : List Char} (ha : nlChar ∉ a) (rest : List Char) :
    splitCh nlChar (a ++ nlChar :: rest) = a :: splitCh nlChar rest := by
  induction a with
  | nil => simp [splitCh]
  | cons c cs ih =>
    have hc : c ≠ nlChar := fun hh => ha (by simp [hh])
    have hmem : nlChar ∉ cs := fun hh => ha (by simp [hh])
    simp [splitCh, hc, ih hmem]

theorem stripCh_eq_self_of {l : List Char}
    (h1 : ∀ c, l.head? = some c → c.isWhitespace = false)
    (h2 : ∀ c, l.getLast? = some c → c.isWhitespace = false) : stripCh l = l := by
  unfold stripCh
  rw [dropWhile_id_of_head h1]
  rw [dropWhile_id_of_head (by
    intro c hc
    apply h2
    rwa [List.head?_reverse] at hc)]
  exact List.reverse_reverse l

theorem not_ws_of_mem_getLast {l : List Char}
    (hall : ∀ c ∈ l, c.isWhitespace = false) :
    ∀ c, l.getLast? = some c → c.isWhitespace = false := by
  intro c hc
  have hmem : c ∈ l.getLast? := by rw [Option.mem_def, hc]
  obtain ⟨h, heq⟩ := List.mem_getLast?_eq_getLast hmem
  subst heq
  exact hall _ (List.getLast_mem h)

theorem getLast?_reprInt (i : Int) :
    ∀ c, (reprInt i).getLast? = some c → c.isWhitespace = false :=
  not_ws_of_mem_getLast (reprInt_no_ws i)

theorem reprTupTail_ne_nil (ys : List Int) : reprTupTail ys ≠ [] :=
  List.length_pos.mp (reprTupTail_length_pos ys)

theorem getLast?_reprTupTail (ys : List Int) :
    (reprTupTail ys).getLast? = some ')' := by
  induction ys with
  | nil => rfl
  | cons y ys ih =>
    rw [reprTupTail_cons]
    have hsh : (',' :: ' ' :: (reprInt y ++ reprTupTail ys)) =
        [',', ' '] ++ (reprInt y ++ reprTupTail ys) := rfl
    rw [hsh, List.getLast?_append_of_ne_nil _ (by
        simp [reprTupTail_ne_nil ys]),
      List.getLast?_append_of_ne_nil _ (reprTupTail_ne_nil ys), ih]

theorem getLast?_reprIntTuple (xs : List Int) :
    (reprIntTuple xs).getLast? = some ')' := by
  match xs with
  | [] => rfl
  | [a] =>
    show (('(' :: (reprInt a ++ [',', ')']))).getLast? = some ')'
    have hsh : ('(' :: (reprInt a ++ [',', ')'])) =
        ['('] ++ (reprInt a ++ [',', ')']) := rfl
    rw [hsh, List.getLast?_append_of_ne_nil _ (by simp),
      List.getLast?_append_of_ne_nil _ (by simp)]
    rfl
  | a :: b :: xs' =>
    show (('(' :: (reprInt a ++ reprTupTail (b :: xs')))).getLast? = some ')'
    have hsh : ('(' :: (reprInt a ++ reprTupTail (b :: xs'))) =
        ['('] ++ (reprInt a ++ reprTupTail (b :: xs')) := rfl
    rw [hsh, List.getLast?_append_of_ne_nil _ (by simp [reprTupTail_ne_nil]),
      List.getLast?_append_of_ne_nil _ (reprTupTail_ne_nil _),
      getLast?_reprTupTail]

theorem reprEntTail_ne_nil (kvs : EntMap) : reprEntTail kvs ≠ [] := by
  cases kvs with
  | nil => simp [reprEntTail]
  | cons kv kvs => rw [reprEntTail_cons]; simp

theorem getLast?_reprEntTail (kvs : EntMap) :
    (reprEntTail kvs).getLast? = some rbChar := by
  induction kvs with
  | nil => rfl
  | cons kv kvs ih =>
    rw [reprEntTail_cons]
    have hsh : (',' :: ' ' :: (reprEntEntry kv ++ reprEntTail kvs)) =
        [',', ' '] ++ (reprEntEntry kv ++ reprEntTail kvs) := rfl
    rw [hsh, List.getLast?_append_of_ne_nil _ (by simp [reprEntTail_ne_nil kvs]),
      List.getLast?_append_of_ne_nil _ (reprEntTail_ne_nil kvs), ih]

theorem getLast?_reprEnt (kvs : EntMap) :
    (reprEnt kvs).getLast? = some rbChar := by
  match kvs with
  | [] => rfl
  | kv :: kvs' =>
    show ((lbChar :: (reprEntEntry kv ++ reprEntTail kvs'))).getLast? = some rbChar
    have hsh : (lbChar :: (reprEntEntry kv ++ reprEntTail kvs')) =
        [lbChar] ++ (reprEntEntry kv ++ reprEntTail kvs') := rfl
    rw [hsh, List.getLast?_append_of_ne_nil _ (by simp [reprEntTail_ne_nil]),
      List.getLast?_append_of_ne_nil _ (reprEntTail_ne_nil _),
      getLast?_reprEntTail]

theorem reprInvTail_ne_nil (kvs : InvMap) : reprInvTail kvs ≠ [] := by
  cases kvs with
  | nil => simp [reprInvTail]
  | cons kv kvs => rw [reprInvTail_cons]; simp

theorem getLast?_reprInvTail (kvs : InvMap) :
    (reprInvTail kvs).getLast? = some rbChar := by
  induction kvs with
  | nil => rfl
  | cons kv kvs ih =>
    rw [reprInvTail_cons]
    have hsh : (',' :: ' ' :: (reprInvEntry kv ++ reprInvTail kvs)) =
        [',', ' '] ++ (reprInvEntry kv ++ reprInvTail kvs) := rfl
    rw [hsh, List.getLast?_append_of_ne_nil _ (by simp [reprInvTail_ne_nil kvs]),
      List.getLast?_append_of_ne_nil _ (reprInvTail_ne_nil kvs), ih]

theorem getLast?_reprInv (kvs : InvMap) :
    (reprInv kvs).getLast? = some rbChar := by
  match kvs with
  | [] => rfl
  | kv :: kvs' =>
    show ((lbChar :: (reprInvEntry kv ++ reprInvTail kvs'))).getLast? = some rbChar
    have hsh : (lbChar :: (reprInvEntry kv ++ reprInvTail kvs')) =
        [lbChar] ++ (reprInvEntry kv ++ reprInvTail kvs') := rfl
    rw [hsh, List.getLast?_append_of_ne_nil _ (by simp [reprInvTail_ne_nil]),
      List.getLast?_append_of_ne_nil _ (reprInvTail_ne_nil _),
      getLast?_reprInvTail]

/-! ### Behaviour of the `load` line dispatch on well-formed save lines -/

theorem ne_space_of_not_ws {c : Char} (h : c.isWhitespace = false) : c ≠ ' ' := by
  intro hh
  subst hh
  exact absurd h (by decide)

theorem takeWhile_all {p : Char → Bool} {l : List Char}
    (h : ∀ c ∈ l, p c = true) : l.takeWhile p = l := by
  have := takeWhile_append_all h []
  simpa using this

theorem headSp_of_no_ws {l : List Char} (h : ∀ c ∈ l, c.isWhitespace = false) :
    headSp l = l := by
  unfold headSp
  apply takeWhile_all
  intro c hc
  simp only [ne_eq, decide_eq_true_eq]
  exact ne_space_of_not_ws (h c hc)

theorem loadStep_level (v : LoadVars) (n : Int) :
    loadStep v ("Level ".data ++ reprInt n) = some { v with level := n } := by
  have h1 : hasPre "Level".data ("Level ".data ++ reprInt n) = true := by
    have heq : "Level ".data ++ reprInt n = "Level".data ++ (' ' :: reprInt n) := rfl
    rw [heq, hasPre_append]
  have h2 : ("Level ".data ++ reprInt n).drop 6 = reprInt n := by
    have h6 : (6 : Nat) = ("Level ".data).length := rfl
    rw [h6, List.drop_left]
  unfold loadStep
  rw [h1, if_pos rfl, h2, headSp_of_no_ws (reprInt_no_ws n), pyInt_reprInt]
  rfl

theorem loadStep_file (gf : List Char)
    (h : ∀ c ∈ gf, c.isWhitespace = false) (v : LoadVars) :
    loadStep v ("File ".data ++ gf) = some { v with game_file := gf } := by
  have hL : hasPre "Level".data ("File ".data ++ gf) = false := rfl
  have hF : hasPre "File".data ("File ".data ++ gf) = true := by
    have heq : "File ".data ++ gf = "File".data ++ (' ' :: gf) := rfl
    rw [heq, hasPre_append]
  have h2 : ("File ".data ++ gf).drop 5 = gf := by
    have h5 : (5 : Nat) = ("File ".data).length := rfl
    rw [h5, List.drop_left]
  unfold loadStep
  rw [hL, if_neg (by decide), hF, if_pos rfl, h2, headSp_of_no_ws h]

theorem loadStep_file_bare (v : LoadVars) :
    loadStep v "File".data = some { v with game_file := [] } := rfl

theorem loadStep_entities (v : LoadVars) (e : EntMap) :
    loadStep v ("Entities ".data ++ reprEnt e) = some { v with entities := e } := by
  have hL : hasPre "Level".data ("Entities ".data ++ reprEnt e) = false := rfl
  have hF : hasPre "File".data ("Entities ".data ++ reprEnt e) = false := rfl
  have hE : hasPre "Entities".data ("Entities ".data ++ reprEnt e) = true := by
    have heq : "Entities ".data ++ reprEnt e = "Entities".data ++ (' ' :: reprEnt e) := rfl
    rw [heq, hasPre_append]
  have h2 : ("Entities ".data ++ reprEnt e).drop 9 = reprEnt e := by
    have h9 : (9 : Nat) = ("Entities ".data).length := rfl
    rw [h9, List.drop_left]
  unfold loadStep
  rw [hL, if_neg (by decide), hF, if_neg (by decide), hE, if_pos rfl, h2,
    evalFull_parseEnt]
  rfl

theorem loadStep_inventory (inv : InvMap)
    (hks : ∀ kv ∈ inv, sqChar ∉ kv.1) (v : LoadVars) :
    loadStep v ("Inventory ".data ++ reprInv inv) = some { v with inventory := inv } := by
  have hL : hasPre "Level".data ("Inventory ".data ++ reprInv inv) = false := rfl
  have hF : hasPre "File".data ("Inventory ".data ++ reprInv inv) = false := rfl
  have hE : hasPre "Entities".data ("Inventory ".data ++ reprInv inv) = false := rfl
  have hI : hasPre "Inventory".data ("Inventory ".data ++ reprInv inv) = true := by
    have heq : "Inventory ".data ++ reprInv inv =
        "Inventory".data ++ (' ' :: reprInv inv) := rfl
    rw [heq, hasPre_append]
  have h2 : ("Inventory ".data ++ reprInv inv).drop 10 = reprInv inv := by
    have h10 : (10 : Nat) = ("Inventory ".data).length := rfl
    rw [h10, List.drop_left]
  unfold loadStep
  rw [hL, if_neg (by decide), hF, if_neg (by decide), hE, if_neg (by decide),
    hI, if_pos rfl, h2, evalFull_parseInv inv hks]
  rfl

theorem loadStep_stats (v : LoadVars) (xs : List Int) :
    loadStep v ("Stats ".data ++ reprIntTuple xs) = some { v with stats := xs } := by
  have hL : hasPre "Level".data ("Stats ".data ++ reprIntTuple xs) = false := rfl
  have hF : hasPre "File".data ("Stats ".data ++ reprIntTuple xs) = false := rfl
  have hE : hasPre "Entities".data ("Stats ".data ++ reprIntTuple xs) = false := rfl
  have hI : hasPre "Inventory".data ("Stats ".data ++ reprIntTuple xs) = false := rfl
  have hS : hasPre "Stats".data ("Stats ".data ++ reprIntTuple xs) = true := by
    have heq : "Stats ".data ++ reprIntTuple xs =
        "Stats".data ++ (' ' :: reprIntTuple xs) := rfl
    rw [heq, hasPre_append]
  have h2 : ("Stats ".data ++ reprIntTuple xs).drop 6 = reprIntTuple xs := by
    have h6 : (6 : Nat) = ("Stats ".data).length := rfl
    rw [h6, List.drop_left]
  unfold loadStep
  rw [hL, if_neg (by decide), hF, if_neg (by decide), hE, if_neg (by decide),
    hI, if_neg (by decide), hS, if_pos rfl, h2, evalFull_parseIntTuple]
  rfl

theorem loadStep_position (v : LoadVars) (xs : List Int) :
    loadStep v ("Position ".data ++ reprIntTuple xs) = some { v with position := xs } := by
  have hL : hasPre "Level".data ("Position ".data ++ reprIntTuple xs) = false := rfl
  have hF : hasPre "File".data ("Position ".data ++ reprIntTuple xs) = false := rfl
  have hE : hasPre "Entities".data ("Position ".data ++ reprIntTuple xs) = false := rfl
  have hI : hasPre "Inventory".data ("Position ".data ++ reprIntTuple xs) = false := rfl
  have hS : hasPre "Stats".data ("Position ".data ++ reprIntTuple xs) = false := rfl
  have hP : hasPre "Position".data ("Position ".data ++ reprIntTuple xs) = true := by
    have heq : "Position ".data ++ reprIntTuple xs =
        "Position".data ++ (' ' :: reprIntTuple xs) := rfl
    rw [heq, hasPre_append]
  have h2 : ("Position ".data ++ reprIntTuple xs).drop 9 = reprIntTuple xs := by
    have h9 : (9 : Nat) = ("Position ".data).length := rfl
    rw [h9, List.drop_left]
  unfold loadStep
  rw [hL, if_neg (by decide), hF, if_neg (by decide), hE, if_neg (by decide),
    hI, if_neg (by decide), hS, if_neg (by decide), hP, if_pos rfl, h2,
    evalFull_parseIntTuple]
  rfl

theorem loadStep_time (v : LoadVars) (n : Int) :
    loadStep v ("Time ".data ++ reprInt n) = some { v with time := n } := by
  have hL : hasPre "Level".data ("Time ".data ++ reprInt n) = false := rfl
  have hF : hasPre "File".data ("Time ".data ++ reprInt n) = false := rfl
  have hE : hasPre "Entities".data ("Time ".data ++ reprInt n) = false := rfl
  have hI : hasPre "Inventory".data ("Time ".data ++ reprInt n) = false := rfl
  have hS : hasPre "Stats".data ("Time ".data ++ reprInt n) = false := rfl
  have hP : hasPre "Position".data ("Time ".data ++ reprInt n) = false := rfl
  have hT : hasPre "Time ".data ("Time ".data ++ reprInt n) = true := hasPre_append _ _
  have h2 : ("Time ".data ++ reprInt n).drop 5 = reprInt n := by
    have h5 : (5 : Nat) = ("Time ".data).length := rfl
    rw [h5, List.drop_left]
  unfold loadStep
  rw [hL, if_neg (by decide), hF, if_neg (by decide), hE, if_neg (by decide),
    hI, if_neg (by decide), hS, if_neg (by decide), hP, if_neg (by decide),
    hT, if_pos rfl, h2, pyInt_reprInt]
  rfl

theorem loadStep_empty (v : LoadVars) : loadStep v [] = some v := rfl

/-! ### The shape of the saved file content -/

theorem saveFormatting_nil (l : List Char) : saveFormatting l [] = l ++ [nlChar] := by
  simp [saveFormatting]

theorem reprEnt_ne_nil (kvs : EntMap) : reprEnt kvs ≠ [] := by
  cases kvs <;> simp [reprEnt]

theorem reprInv_ne_nil (kvs : InvMap) : reprInv kvs ≠ [] := by
  cases kvs <;> simp [reprInv]

theorem reprIntTuple_ne_nil (xs : List Int) : reprIntTuple xs ≠ [] := by
  obtain ⟨cs, hcs⟩ := reprIntTuple_head xs
  simp [hcs]

theorem save_split {m : Model} {t : Int} {c : List Char} {lvl : Level}
    (hidx : pyIdx m.levels m.level_num = some lvl)
    (hc : save m t = some c)
    (hgf : nlChar ∉ m.game_file)
    (hkeys : ∀ kv ∈ m.player.inventory, nlChar ∉ kv.1) :
    splitCh nlChar c = saveRecords m lvl t ++ [[]] := by
  unfold save saveLines at hc
  rw [hidx] at hc
  simp only [Option.map_some', Option.some.injEq] at hc
  subst hc
  have hno1 : nlChar ∉ "Level ".data ++ reprInt m.level_num :=
    noNl_append (by decide) (noNl_reprInt _)
  have hno2 : nlChar ∉ "File ".data ++ m.game_file :=
    noNl_append (by decide) hgf
  have hno3 : nlChar ∉ "Entities ".data ++ reprEnt lvl.items :=
    noNl_append (by decide) (noNl_reprEnt _)
  have hno4 : nlChar ∉ "Inventory ".data ++ reprInv m.player.inventory :=
    noNl_append (by decide) (noNl_reprInv hkeys)
  have hno5 : nlChar ∉ "Stats ".data ++
      reprIntTuple [m.player.health, m.player.hunger, m.player.thirst] :=
    noNl_append (by decide) (noNl_reprIntTuple _)
  have hno6 : nlChar ∉ "Position ".data ++ reprIntTuple m.player.position :=
    noNl_append (by decide) (noNl_reprIntTuple _)
  have hno7 : nlChar ∉ "Time ".data ++ reprInt t :=
    noNl_append (by decide) (noNl_reprInt _)
  have hcontent :
      (([ "Level ".data ++ reprInt m.level_num,
          "File ".data ++ m.game_file,
          "Entities ".data ++ reprEnt lvl.items,
          "Inventory ".data ++ reprInv m.player.inventory,
          "Stats ".data ++ reprIntTuple [m.player.health, m.player.hunger, m.player.thirst],
          "Position ".data ++ reprIntTuple m.player.position,
          "Time ".data ++ reprInt t ]).map (fun l => saveFormatting l [])).flatten =
      ("Level ".data ++ reprInt m.level_num) ++ nlChar ::
        (("File ".data ++ m.game_file) ++ nlChar ::
          (("Entities ".data ++ reprEnt lvl.items) ++ nlChar ::
            (("Inventory ".data ++ reprInv m.player.inventory) ++ nlChar ::
              (("Stats ".data ++
                  reprIntTuple [m.player.health, m.player.hunger, m.player.thirst]) ++ nlChar ::
                (("Position ".data ++ reprIntTuple m.player.position) ++ nlChar ::
                  (("Time ".data ++ reprInt t) ++ nlChar :: [])))))) := by
    simp [saveFormatting_nil]
  rw [hcontent, splitCh_append hno1, splitCh_append hno2, splitCh_append hno3,
    splitCh_append hno4, splitCh_append hno5, splitCh_append hno6,
    splitCh_append hno7]
  rfl

theorem stripCh_line {p payload : List Char} (hp : p ≠ [])
    (hhead : ∀ c, p.head? = some c → c.isWhitespace = false)
    (hpay : payload ≠ [])
    (hlast : ∀ c, payload.getLast? = some c → c.isWhitespace = false) :
    stripCh (p ++ payload) = p ++ payload := by
  apply stripCh_eq_self_of
  · intro c hc
    rw [head?_append_of_ne_nil hp] at hc
    exact hhead c hc
  · intro c hc
    rw [List.getLast?_append_of_ne_nil _ hpay] at hc
    exact hlast c hc

theorem attemptUnlockDoor_items (l : Level) :
    (attemptUnlockDoor l).items = l.items := by
  unfold attemptUnlockDoor
  split <;> rfl

theorem head_ws_Level : ∀ c, ("Level ".data).head? = some c → c.isWhitespace = false := by
  intro c hc
  have h : ("Level ".data).head? = some 'L' := rfl
  rw [h] at hc
  cases hc
  decide

theorem head_ws_File : ∀ c, ("File ".data).head? = some c → c.isWhitespace = false := by
  intro c hc
  have h : ("File ".data).head? = some 'F' := rfl
  rw [h] at hc
  cases hc
  decide

theorem head_ws_Entities : ∀ c, ("Entities ".data).head? = some c → c.isWhitespace = false := by
  intro c hc
  have h : ("Entities ".data).head? = some 'E' := rfl
  rw [h] at hc
  cases hc
  decide

theorem head_ws_Inventory : ∀ c, ("Inventory ".data).head? = some c → c.isWhitespace = false := by
  intro c hc
  have h : ("Inventory ".data).head? = some 'I' := rfl
  rw [h] at hc
  cases hc
  decide

theorem head_ws_Stats : ∀ c, ("Stats ".data).head? = some c → c.isWhitespace = false := by
  intro c hc
  have h : ("Stats ".data).head? = some 'S' := rfl
  rw [h] at hc
  cases hc
  decide

theorem head_ws_Position : ∀ c, ("Position ".data).head? = some c → c.isWhitespace = false := by
  intro c hc
  have h : ("Position ".data).head? = some 'P' := rfl
  rw [h] at hc
  cases hc
  decide

theorem head_ws_Time : ∀ c, ("Time ".data).head? = some c → c.isWhitespace = false := by
  intro c hc
  have h : ("Time ".data).head? = some 'T' := rfl
  rw [h] at hc
  cases hc
  decide

theorem last_ws_reprIntTuple (xs : List Int) :
    ∀ c, (reprIntTuple xs).getLast? = some c → c.isWhitespace = false := by
  intro c hc
  rw [getLast?_reprIntTuple] at hc
  cases hc
  decide

theorem last_ws_reprEnt (kvs : EntMap) :
    ∀ c, (reprEnt kvs).getLast? = some c → c.isWhitespace = false := by
  intro c hc
  rw [getLast?_reprEnt] at hc
  cases hc
  decide

theorem last_ws_reprInv (kvs : InvMap) :
    ∀ c, (reprInv kvs).getLast? = some c → c.isWhitespace = false := by
  intro c hc
  rw [getLast?_reprInv] at hc
  cases hc
  decide

theorem foldSteps_cons_some {σ α : Type} {f : σ → α → Option σ} {s s' : σ} {a : α}
    (h : f s a = some s') (as : List α) :
    foldSteps f s (a :: as) = foldSteps f s' as := by
  simp [foldSteps, h]

/-! ### C1: the save/load round trip -/

/-- C1 (amended): loading a save file produced by `MazeRunnerFile.save`
yields a model with the same level number, game file, current level
entities, inventory items, player stats and player position, and the same
time — provided the game file path contains no whitespace, the inventory
keys contain no single quote or newline, the level index is a valid
non-negative index, and the environment still loads the recorded game file
with enough levels. -/
theorem save_load_roundtrip (env : Env) (m : Model) (t : Int) (c : List Char)
    (d : List Level × Player)
    (hc : save m t = some c)
    (hgf : ∀ ch ∈ m.game_file, ch.isWhitespace = false)
    (hkeys : ∀ kv ∈ m.player.inventory, sqChar ∉ kv.1 ∧ nlChar ∉ kv.1)
    (hnn : 0 ≤ m.level_num)
    (henv : env.loadGame m.game_file = some d)
    (hlt : m.level_num.toNat < d.1.length) :
    ∃ m', loadContent env c = some (m', t) ∧
      m'.level_num = m.level_num ∧
      m'.game_file = m.game_file ∧
      currentItems m' = currentItems m ∧
      m'.player.inventory = m.player.inventory ∧
      playerStats m' = playerStats m ∧
      m'.player.position = m.player.position := by
  have hgfnl : nlChar ∉ m.game_file := fun h => absurd (hgf _ h) (by decide)
  obtain ⟨lvl, hidx⟩ : ∃ lvl, pyIdx m.levels m.level_num = some lvl := by
    cases hpy : pyIdx m.levels m.level_num with
    | some lvl => exact ⟨lvl, rfl⟩
    | none =>
      rw [save, saveLines, hpy] at hc
      exact absurd hc (by simp)
  have hsplit := save_split hidx hc hgfnl (fun kv hkv => (hkeys kv hkv).2)
  have hksq : ∀ kv ∈ m.player.inventory, sqChar ∉ kv.1 :=
    fun kv hkv => (hkeys kv hkv).1
  have hstripnil : stripCh ([] : List Char) = [] := rfl
  have hfold : foldSteps loadStep loadVars0 ((splitCh nlChar c).map stripCh) =
      some { level := m.level_num, game_file := m.game_file,
             entities := lvl.items, inventory := m.player.inventory,
             stats := [m.player.health, m.player.hunger, m.player.thirst],
             position := m.player.position, time := t } := by
    rw [hsplit]
    have hs1 : stripCh ("Level ".data ++ reprInt m.level_num) =
        "Level ".data ++ reprInt m.level_num :=
      stripCh_line (by decide) head_ws_Level (reprInt_ne_nil _) (getLast?_reprInt _)
    have hs3 : stripCh ("Entities ".data ++ reprEnt lvl.items) =
        "Entities ".data ++ reprEnt lvl.items :=
      stripCh_line (by decide) head_ws_Entities (reprEnt_ne_nil _) (last_ws_reprEnt _)
    have hs4 : stripCh ("Inventory ".data ++ reprInv m.player.inventory) =
        "Inventory ".data ++ reprInv m.player.inventory :=
      stripCh_line (by decide) head_ws_Inventory (reprInv_ne_nil _) (last_ws_reprInv _)
    have hs5 : stripCh ("Stats ".data ++
        reprIntTuple [m.player.health, m.player.hunger, m.player.thirst]) =
        "Stats ".data ++ reprIntTuple [m.player.health, m.player.hunger, m.player.thirst] :=
      stripCh_line (by decide) head_ws_Stats (reprIntTuple_ne_nil _) (last_ws_reprIntTuple _)
    have hs6 : stripCh ("Position ".data ++ reprIntTuple m.player.position) =
        "Position ".data ++ reprIntTuple m.player.position :=
      stripCh_line (by decide) head_ws_Position (reprIntTuple_ne_nil _) (last_ws_reprIntTuple _)
    have hs7 : stripCh ("Time ".data ++ reprInt t) = "Time ".data ++ reprInt t :=
      stripCh_line (by decide) head_ws_Time (reprInt_ne_nil _) (getLast?_reprInt _)
    unfold saveRecords
    rw [List.map_append, List.map_cons, List.map_cons, List.map_cons, List.map_cons,
      List.map_cons, List.map_cons, List.map_cons, List.map_nil,
      List.map_cons, List.map_nil]
    rw [hs1, hs3, hs4, hs5, hs6, hs7, hstripnil]
    have happ : ∀ (a1 a2 a3 a4 a5 a6 a7 x : List Char),
        ([a1, a2, a3, a4, a5, a6, a7] ++ [x] : List (List Char)) =
        [a1, a2, a3, a4, a5, a6, a7, x] := fun _ _ _ _ _ _ _ _ => rfl
    rw [happ]
    by_cases hgf0 : m.game_file = []
    · have hs2 : stripCh ("File ".data ++ m.game_file) = "File".data := by
        rw [hgf0]
        decide
      rw [hs2]
      rw [foldSteps_cons_some (loadStep_level loadVars0 m.level_num) _,
        foldSteps_cons_some (loadStep_file_bare _) _,
        foldSteps_cons_some (loadStep_entities _ lvl.items) _,
        foldSteps_cons_some (loadStep_inventory m.player.inventory hksq _) _,
        foldSteps_cons_some (loadStep_stats _ _) _,
        foldSteps_cons_some (loadStep_position _ _) _,
        foldSteps_cons_some (loadStep_time _ t) _,
        foldSteps_cons_some (loadStep_empty _) _]
      rw [hgf0]
      rfl
    · have hs2 : stripCh ("File ".data ++ m.game_file) =
          "File ".data ++ m.game_file :=
        stripCh_line (by decide) head_ws_File hgf0 (not_ws_of_mem_getLast hgf)
      rw [hs2]
      rw [foldSteps_cons_some (loadStep_level loadVars0 m.level_num) _,
        foldSteps_cons_some (loadStep_file m.game_file hgf _) _,
        foldSteps_cons_some (loadStep_entities _ lvl.items) _,
        foldSteps_cons_some (loadStep_inventory m.player.inventory hksq _) _,
        foldSteps_cons_some (loadStep_stats _ _) _,
        foldSteps_cons_some (loadStep_position _ _) _,
        foldSteps_cons_some (loadStep_time _ t) _,
        foldSteps_cons_some (loadStep_empty _) _]
      rfl
  have hget : d.1.get? m.level_num.toNat = some (d.1.get ⟨m.level_num.toNat, hlt⟩) := by
    rw [List.get?_eq_getElem?, List.getElem?_eq_getElem hlt]
    rfl
  have hst0 : ([m.player.health, m.player.hunger, m.player.thirst].get? 0) =
      some m.player.health := rfl
  have hst1 : ([m.player.health, m.player.hunger, m.player.thirst].get? 1) =
      some m.player.hunger := rfl
  have hst2 : ([m.player.health, m.player.hunger, m.player.thirst].get? 2) =
      some m.player.thirst := rfl
  have hpy : pyIdx d.1 m.level_num = some (d.1.get ⟨m.level_num.toNat, hlt⟩) := by
    unfold pyIdx
    rw [if_pos hnn, hget]
  have hps : pySetIdx d.1 m.level_num
      (attemptUnlockDoor { d.1.get ⟨m.level_num.toNat, hlt⟩ with items := lvl.items }) =
      some (d.1.set m.level_num.toNat
        (attemptUnlockDoor { d.1.get ⟨m.level_num.toNat, hlt⟩ with items := lvl.items })) := by
    unfold pySetIdx
    rw [if_pos hnn, if_pos hlt]
  refine ⟨{ game_file := m.game_file, level_num := m.level_num,
            levels := d.1.set m.level_num.toNat
              (attemptUnlockDoor { d.1.get ⟨m.level_num.toNat, hlt⟩ with items := lvl.items }),
            player := { position := m.player.position,
                        inventory := m.player.inventory,
                        health := m.player.health,
                        hunger := m.player.hunger,
                        thirst := m.player.thirst },
            hasWon := false, hasLost := false, didLevelUp := false },
    ?_, rfl, rfl, ?_, rfl, rfl, rfl⟩
  · unfold loadContent
    rw [hfold]
    simp only [loadBuild, modelCtor, henv, Option.map_some', hst0, hst1, hst2,
      hpy, hps]
    rfl
  · unfold currentItems
    rw [hidx]
    show (pyIdx (d.1.set m.level_num.toNat _) m.level_num).map Level.items =
      some lvl.items
    unfold pyIdx
    rw [if_pos hnn, List.get?_eq_getElem?,
      List.getElem?_set_self (by simpa using hlt)]
    simp [attemptUnlockDoor_items]

/-! ### Concrete fixtures for witnesses and counterexamples -/

theorem save_load_roundtrip_witness :
    ∃ m', loadContent envEx ((save mEx 7).getD []) = some (m', 7) ∧
      m'.level_num = mEx.level_num ∧
      m'.game_file = mEx.game_file ∧
      currentItems m' = currentItems mEx ∧
      m'.player.inventory = mEx.player.inventory ∧
      playerStats m' = playerStats mEx ∧
      m'.player.position = mEx.player.position :=
  save_load_roundtrip envEx mEx 7 ((save mEx 7).getD [])
    ([{ items := [], doorUnlocked := false }], playerCtor [0, 0])
    (by decide) (by decide) (by decide) (by decide) (by decide) (by decide)

/-- C1, counterexample: for the model whose game-file path is `a b`, the
save/load round trip succeeds but yields a model whose game file is the
truncated path `a` — the round trip does not preserve the game file. -/
theorem save_load_space_counterexample :
    ((save mSp 7).bind (loadContent envSp)).map (fun p => (p.1.game_file, p.2)) =
      some ("a".data, 7) ∧ "a".data ≠ mSp.game_file := by
  constructor
  · decide
  · decide

/-! ### C2: the save file format -/

/-- C2 (amended): for every model whose game-file path and inventory keys
contain no newline, `MazeRunnerFile.save` writes a newline-delimited text
file consisting of records with the textual prefixes `Level`, `File`,
`Entities`, `Inventory`, `Stats`, `Position` and `Time`, in that order,
each prefix followed by the serialized representation of the corresponding
value. -/
theorem save_format (m : Model) (t : Int) (c : List Char) (lvl : Level)
    (hidx : pyIdx m.levels m.level_num = some lvl)
    (hc : save m t = some c)
    (hgf : nlChar ∉ m.game_file)
    (hkeys : ∀ kv ∈ m.player.inventory, nlChar ∉ kv.1) :
    splitCh nlChar c =
      [ "Level ".data ++ reprInt m.level_num,
        "File ".data ++ m.game_file,
        "Entities ".data ++ reprEnt lvl.items,
        "Inventory ".data ++ reprInv m.player.inventory,
        "Stats ".data ++ reprIntTuple [m.player.health, m.player.hunger, m.player.thirst],
        "Position ".data ++ reprIntTuple m.player.position,
        "Time ".data ++ reprInt t,
        [] ] :=
  save_split hidx hc hgf hkeys

theorem save_format_witness :
    splitCh nlChar ((save mEx 7).getD []) =
      [ "Level ".data ++ reprInt mEx.level_num,
        "File ".data ++ mEx.game_file,
        "Entities ".data ++ reprEnt lvlEx.items,
        "Inventory ".data ++ reprInv mEx.player.inventory,
        "Stats ".data ++
          reprIntTuple [mEx.player.health, mEx.player.hunger, mEx.player.thirst],
        "Position ".data ++ reprIntTuple mEx.player.position,
        "Time ".data ++ reprInt 7,
        [] ] :=
  save_format mEx 7 ((save mEx 7).getD []) lvlEx
    (by decide) (by decide) (by decide) (by decide)

/-- C2, counterexample: for the model whose game-file path contains a
newline, the saved file splits into nine newline-delimited pieces, and its
third piece `b` starts with none of the seven record prefixes — the file
does not consist of the seven prefixed records. -/
theorem save_format_newline_counterexample :
    ∃ c, save mNl 0 = some c ∧
      (splitCh nlChar c).length = 9 ∧
      (splitCh nlChar c).get? 2 = some ['b'] ∧
      (∀ p ∈ [ "Level".data, "File".data, "Entities".data, "Inventory".data,
               "Stats".data, "Position".data, "Time".data],
        hasPre p ['b'] = false) :=
  ⟨(save mNl 0).getD [], by decide, by decide, by decide, by decide⟩

/-! ### C3: what `load` requires of the save file -/

theorem foldSteps_none {σ α : Type} {f : σ → α → Option σ} {a : α}
    (ha : ∀ s, f s a = none) :
    ∀ (l : List α) (s : σ), a ∈ l → foldSteps f s l = none := by
  intro l
  induction l with
  | nil =>
    intro s h
    simp at h
  | cons x xs ih =>
    intro s h
    rcases List.mem_cons.mp h with h | h
    · subst h
      simp [foldSteps, ha s]
    · cases hfx : f s x with
      | none => simp [foldSteps, hfx]
      | some s' =>
        simp only [foldSteps, hfx]
        exact ih s' h

theorem hasPre_shape {p l : List Char} {c : Char} (hp : hasPre (c :: p) l = true) :
    ∃ r, l = c :: r := by
  cases l with
  | nil => simp [hasPre] at hp
  | cons x xs =>
    by_cases hcx : c = x
    · subst hcx
      exact ⟨xs, rfl⟩
    · simp [hasPre, hcx] at hp

theorem loadStep_bad {l : List Char} (hb : badLine l) (v : LoadVars) :
    loadStep v l = none := by
  rcases hb with ⟨h, hbad⟩ | ⟨h, hbad⟩ | ⟨h, hbad⟩ | ⟨h, hbad⟩ | ⟨h, hbad⟩ | ⟨h, hbad⟩
  · unfold loadStep
    rw [h, if_pos rfl, hbad]
    rfl
  · obtain ⟨r, rfl⟩ := @hasPre_shape "ntities".data _ 'E' h
    unfold loadStep
    rw [show hasPre "Level".data ('E' :: r) = false from rfl, if_neg (by decide),
      show hasPre "File".data ('E' :: r) = false from rfl, if_neg (by decide),
      h, if_pos rfl, hbad]
    rfl
  · obtain ⟨r, rfl⟩ := @hasPre_shape "nventory".data _ 'I' h
    unfold loadStep
    rw [show hasPre "Level".data ('I' :: r) = false from rfl, if_neg (by decide),
      show hasPre "File".data ('I' :: r) = false from rfl, if_neg (by decide),
      show hasPre "Entities".data ('I' :: r) = false from rfl, if_neg (by decide),
      h, if_pos rfl, hbad]
    rfl
  · obtain ⟨r, rfl⟩ := @hasPre_shape "tats".data _ 'S' h
    unfold loadStep
    rw [show hasPre "Level".data ('S' :: r) = false from rfl, if_neg (by decide),
      show hasPre "File".data ('S' :: r) = false from rfl, if_neg (by decide),
      show hasPre "Entities".data ('S' :: r) = false from rfl, if_neg (by decide),
      show hasPre "Inventory".data ('S' :: r) = false from rfl, if_neg (by decide),
      h, if_pos rfl, hbad]
    rfl
  · obtain ⟨r, rfl⟩ := @hasPre_shape "osition".data _ 'P' h
    unfold loadStep
    rw [show hasPre "Level".data ('P' :: r) = false from rfl, if_neg (by decide),
      show hasPre "File".data ('P' :: r) = false from rfl, if_neg (by decide),
      show hasPre "Entities".data ('P' :: r) = false from rfl, if_neg (by decide),
      show hasPre "Inventory".data ('P' :: r) = false from rfl, if_neg (by decide),
      show hasPre "Stats".data ('P' :: r) = false from rfl, if_neg (by decide),
      h, if_pos rfl, hbad]
    rfl
  · obtain ⟨r, rfl⟩ := @hasPre_shape "ime ".data _ 'T' h
    unfold loadStep
    rw [show hasPre "Level".data ('T' :: r) = false from rfl, if_neg (by decide),
      show hasPre "File".data ('T' :: r) = false from rfl, if_neg (by decide),
      show hasPre "Entities".data ('T' :: r) = false from rfl, if_neg (by decide),
      show hasPre "Inventory".data ('T' :: r) = false from rfl, if_neg (by decide),
      show hasPre "Stats".data ('T' :: r) = false from rfl, if_neg (by decide),
      show hasPre "Position".data ('T' :: r) = false from rfl, if_neg (by decide),
      h, if_pos rfl, hbad]
    rfl

/-- C3 (amended): `load` does not require the record prefixes to be present
— a missing record leaves its Python default in place (level `0`, empty
file path, empty entities and inventory, empty stats and position tuples,
time `0`) — but whenever some line of the file carries one of the parsed
prefixes with an unparseable payload, `load` fails. -/
theorem load_unparseable_fails (env : Env) (content : List Char) (l : List Char)
    (hmem : l ∈ (splitCh nlChar content).map stripCh)
    (hb : badLine l) :
    loadContent env content = none := by
  unfold loadContent
  rw [foldSteps_none (loadStep_bad hb) _ _ hmem]

theorem load_unparseable_fails_witness :
    loadContent envEx c3bad = none :=
  load_unparseable_fails envEx c3bad "Entities oops".data (by decide)
    (by unfold badLine; decide)

/-- C3, counterexample: a save file from which the `Time` record is
entirely absent still loads successfully, returning time `0` — missing
prefixes do not make `load` fail. -/
theorem load_missing_time_counterexample :
    (∀ line ∈ (splitCh nlChar c3content).map stripCh,
      hasPre "Time".data line = false) ∧
    (loadContent envEx c3content).isSome = true ∧
    (loadContent envEx c3content).map Prod.snd = some 0 := by
  refine ⟨by decide, by decide, by decide⟩

/-! ### C4: which parser handles which record -/

/-- C4: in the `load` line dispatch, the payloads of the `Entities`,
`Inventory`, `Stats` and `Position` records are parsed by the `eval` model
(`parseEnt`, `parseInv`, `parseIntTuple`) applied to the text after the
prefix, while the `Level` and `Time` payloads are parsed as integers
(`pyInt`) and the `File` payload is taken as a plain string (the text up
to the first space). -/
theorem loadStep_parsers (v : LoadVars) (l : List Char) :
    (hasPre "Level".data l = true →
      loadStep v l = (pyInt (headSp (l.drop 6))).map (fun n => { v with level := n })) ∧
    (hasPre "File".data l = true →
      loadStep v l = some { v with game_file := headSp (l.drop 5) }) ∧
    (hasPre "Entities".data l = true →
      loadStep v l = (evalFull parseEnt (l.drop 9)).map (fun e => { v with entities := e })) ∧
    (hasPre "Inventory".data l = true →
      loadStep v l = (evalFull parseInv (l.drop 10)).map (fun e => { v with inventory := e })) ∧
    (hasPre "Stats".data l = true →
      loadStep v l = (evalFull parseIntTuple (l.drop 6)).map (fun e => { v with stats := e })) ∧
    (hasPre "Position".data l = true →
      loadStep v l = (evalFull parseIntTuple (l.drop 9)).map (fun e => { v with position := e })) ∧
    (hasPre "Time ".data l = true →
      loadStep v l = (pyInt (l.drop 5)).map (fun n => { v with time := n })) := by
  refine ⟨?_, ?_, ?_, ?_, ?_, ?_, ?_⟩
  · intro h
    unfold loadStep
    rw [h, if_pos rfl]
  · intro h
    obtain ⟨r, rfl⟩ := @hasPre_shape "ile".data _ 'F' h
    unfold loadStep
    rw [show hasPre "Level".data ('F' :: r) = false from rfl, if_neg (by decide),
      h, if_pos rfl]
  · intro h
    obtain ⟨r, rfl⟩ := @hasPre_shape "ntities".data _ 'E' h
    unfold loadStep
    rw [show hasPre "Level".data ('E' :: r) = false from rfl, if_neg (by decide),
      show hasPre "File".data ('E' :: r) = false from rfl, if_neg (by decide),
      h, if_pos rfl]
  · intro h
    obtain ⟨r, rfl⟩ := @hasPre_shape "nventory".data _ 'I' h
    unfold loadStep
    rw [show hasPre "Level".data ('I' :: r) = false from rfl, if_neg (by decide),
      show hasPre "File".data ('I' :: r) = false from rfl, if_neg (by decide),
      show hasPre "Entities".data ('I' :: r) = false from rfl, if_neg (by decide),
      h, if_pos rfl]
  · intro h
    obtain ⟨r, rfl⟩ := @hasPre_shape "tats".data _ 'S' h
    unfold loadStep
    rw [show hasPre "Level".data ('S' :: r) = false from rfl, if_neg (by decide),
      show hasPre "File".data ('S' :: r) = false from rfl, if_neg (by decide),
      show hasPre "Entities".data ('S' :: r) = false from rfl, if_neg (by decide),
      show hasPre "Inventory".data ('S' :: r) = false from rfl, if_neg (by decide),
      h, if_pos rfl]
  · intro h
    obtain ⟨r, rfl⟩ := @hasPre_shape "osition".data _ 'P' h
    unfold loadStep
    rw [show hasPre "Level".data ('P' :: r) = false from rfl, if_neg (by decide),
      show hasPre "File".data ('P' :: r) = false from rfl, if_neg (by decide),
      show hasPre "Entities".data ('P' :: r) = false from rfl, if_neg (by decide),
      show hasPre "Inventory".data ('P' :: r) = false from rfl, if_neg (by decide),
      show hasPre "Stats".data ('P' :: r) = false from rfl, if_neg (by decide),
      h, if_pos rfl]
  · intro h
    obtain ⟨r, rfl⟩ := @hasPre_shape "ime ".data _ 'T' h
    unfold loadStep
    rw [show hasPre "Level".data ('T' :: r) = false from rfl, if_neg (by decide),
      show hasPre "File".data ('T' :: r) = false from rfl, if_neg (by decide),
      show hasPre "Entities".data ('T' :: r) = false from rfl, if_neg (by decide),
      show hasPre "Inventory".data ('T' :: r) = false from rfl, if_neg (by decide),
      show hasPre "Stats".data ('T' :: r) = false from rfl, if_neg (by decide),
      show hasPre "Position".data ('T' :: r) = false from rfl, if_neg (by decide),
      h, if_pos rfl]

theorem loadStep_parsers_witness :
    loadStep loadVars0 "Entities \x7b\x7d".data =
      (evalFull parseEnt ("Entities \x7b\x7d".data.drop 9)).map
        (fun e => { loadVars0 with entities := e }) :=
  (loadStep_parsers loadVars0 "Entities \x7b\x7d".data).2.2.1 (by decide)

/-! ### The `ControlsFrame` timer -/

theorem ticksFromStart_succ (n : Nat) :
    ticksFromStart (n + 1) = fireTick (ticksFromStart n) := by
  unfold ticksFromStart
  rw [Function.iterate_succ_apply']

theorem ticksFromStart_spec (n : Nat) (hn : 1 ≤ n) :
    ticksFromStart n =
      { time := n, timerUpdate := some (n - 1),
        scheduled := [(n - 1, 1000)], nextHandle := n } := by
  induction n with
  | zero => omega
  | succ k ih =>
    rw [ticksFromStart_succ]
    by_cases hk : 1 ≤ k
    · rw [ih hk]
      simp [fireTick, handleTimer]
    · have hk0 : k = 0 := by omega
      subst hk0
      rfl

/-! ### C6: the timer as a periodic self-rescheduling callback -/

/-- C6: every `_handle_timer` invocation schedules exactly one further
invocation `1000` ms later and increments the stored time by exactly one;
after `n` ticks from a fresh start the stored time is `n`; `stop_timer`
leaves the stored time (and everything but the schedule) unchanged and
removes exactly the callback whose handle is stored in `_timer_update` —
in every post-start state that is the single pending callback, so the
schedule becomes empty. -/
theorem timer_spec :
    (∀ s : TimerState, (handleTimer s).time = s.time + 1 ∧
      (handleTimer s).scheduled = s.scheduled ++ [(s.nextHandle, 1000)]) ∧
    (∀ n : Nat, (ticksFromStart n).time = n) ∧
    (∀ s s' : TimerState, stopTimer s = some s' →
      s'.time = s.time ∧ s'.timerUpdate = s.timerUpdate ∧
      s'.nextHandle = s.nextHandle ∧
      ∃ h, s.timerUpdate = some h ∧
        s'.scheduled = s.scheduled.filter (fun e => e.1 ≠ h)) ∧
    (∀ n : Nat, 1 ≤ n →
      stopTimer (ticksFromStart n) = some { ticksFromStart n with scheduled := [] }) := by
  refine ⟨?_, ?_, ?_, ?_⟩
  · intro s
    exact ⟨rfl, rfl⟩
  · intro n
    cases n with
    | zero => rfl
    | succ k =>
      rw [ticksFromStart_spec (k + 1) (by omega)]
  · intro s s' hstop
    unfold stopTimer at hstop
    cases hu : s.timerUpdate with
    | none =>
      rw [hu] at hstop
      exact absurd hstop (by simp)
    | some h =>
      rw [hu] at hstop
      simp only [Option.some.injEq] at hstop
      subst hstop
      exact ⟨rfl, rfl, rfl, ⟨h, rfl, rfl⟩⟩
  · intro n hn
    rw [ticksFromStart_spec n hn]
    simp [stopTimer, List.filter]

theorem timer_spec_witness :
    stopTimer (ticksFromStart 3) = some { ticksFromStart 3 with scheduled := [] } ∧
    (ticksFromStart 3).time = 3 :=
  ⟨timer_spec.2.2.2 3 (by decide), timer_spec.2.1 3⟩

/-! ### C10: the `_timer_update` cancel precondition -/

theorem timerReach_isSome {s : TimerState} (h : TimerReach s) :
    s.timerUpdate.isSome = true := by
  induction h with
  | start => rfl
  | tick _ _ => rfl
  | stop hr heq ih =>
    rename_i s₀ s₁
    unfold stopTimer at heq
    cases hu : s₀.timerUpdate with
    | none =>
      rw [hu] at heq
      exact absurd heq (by simp)
    | some h₀ =>
      rw [hu] at heq
      simp only [Option.some.injEq] at heq
      subst heq
      simp [hu]
  | set t hr heq ih =>
    rename_i s₀ s₁
    unfold setTime at heq
    cases hu : s₀.timerUpdate with
    | none =>
      rw [hu] at heq
      exact absurd heq (by simp)
    | some h₀ =>
      rw [hu] at heq
      simp only [Option.some.injEq] at heq
      subst heq
      rfl
  | reset hr heq ih =>
    rename_i s₀ s₁
    unfold resetTimer at heq
    cases hu : s₀.timerUpdate with
    | none =>
      rw [hu] at heq
      exact absurd heq (by simp)
    | some h₀ =>
      rw [hu] at heq
      simp only [Option.some.injEq] at heq
      subst heq
      rfl

/-- C10: `stop_timer`, `set_time` and `reset_timer` each cancel the
`_timer_update` callback handle, which is assigned only inside
`_handle_timer`: on the fresh controls frame (before `start_timer`) the
attribute is absent and each of the three calls fails, while in every
state reachable after `start_timer` has run the handle is present and the
cancel access cannot fail. -/
theorem timer_cancel_precondition :
    (initTimer.timerUpdate = none ∧
     stopTimer initTimer = none ∧
     (∀ t : Int, setTime t initTimer = none) ∧
     resetTimer initTimer = none) ∧
    (∀ s : TimerState, TimerReach s →
      s.timerUpdate.isSome = true ∧
      (stopTimer s).isSome = true ∧
      (∀ t : Int, (setTime t s).isSome = true) ∧
      (resetTimer s).isSome = true) := by
  constructor
  · exact ⟨rfl, rfl, fun t => rfl, rfl⟩
  · intro s h
    have hk := timerReach_isSome h
    obtain ⟨hd, hhd⟩ := Option.isSome_iff_exists.mp hk
    refine ⟨hk, ?_, ?_, ?_⟩
    · simp [stopTimer, hhd]
    · intro t
      simp [setTime, hhd]
    · simp [resetTimer, hhd]

theorem timer_cancel_precondition_witness :
    (stopTimer (startTimer initTimer)).isSome = true ∧
    (setTime 5 (startTimer initTimer)).isSome = true :=
  ⟨(timer_cancel_precondition.2 (startTimer initTimer) TimerReach.start).2.1,
   (timer_cancel_precondition.2 (startTimer initTimer) TimerReach.start).2.2.1 5⟩

/-! ### C5: failed loads are atomic -/

/-- C5: whenever the selected save file is missing or malformed — that is,
whenever `MazeRunnerFile.load` raises — `_handle_load_game` shows the
generic `Select Valid File Type!` dialog and leaves the controller's
model, game file and timer state entirely unchanged. -/
theorem handleLoadGame_failure (env : Env) (st : Ctl) (p : List Char)
    (hfail : loadFile env p = none) :
    handleLoadGame env st (some p) =
      (st, { noEff with dialogs := [selectValidMsg] }) := by
  simp only [handleLoadGame, hfail]

theorem handleLoadGame_failure_witness :
    handleLoadGame envEx ctlEx (some "x".data) =
      (ctlEx, { noEff with dialogs := [selectValidMsg] }) :=
  handleLoadGame_failure envEx ctlEx "x".data (by decide)

/-! ### C7: keypress handling -/

/-- C7 (amended): once the model reports won or lost, no keypress changes
the controller state; while the game is unfinished (and the timer has
started), a movement keypress moves the player and triggers exactly one
full redraw — unless the move itself finishes the game, in which case no
redraw happens: the timer is stopped and a single message box is shown
instead. -/
theorem handleKeypress_spec (mv : Model → (Int × Int) → Model) (st : Ctl) (c : Char) :
    (finishedState st.model = true → handleKeypress mv st c = some (st, noEff)) ∧
    (∀ δ, lookupMove c = some δ → finishedState st.model = false →
      st.timer.timerUpdate.isSome = true →
      ∃ st' eff, handleKeypress mv st c = some (st', eff) ∧
        st'.model = mv st.model δ ∧
        (finishedState (mv st.model δ) = false → eff.redraws = 1 ∧ eff.dialogs = []) ∧
        (finishedState (mv st.model δ) = true → eff.redraws = 0 ∧
          eff.dialogs.length = 1 ∧ eff.timerStopped = true)) := by
  constructor
  · intro h
    cases hlm : lookupMove c with
    | none => simp [handleKeypress, hlm]
    | some δ => simp [handleKeypress, hlm, h]
  · intro δ hδ hnf hsome
    obtain ⟨hd, hhd⟩ := Option.isSome_iff_exists.mp hsome
    have hstop : stopTimer st.timer =
        some { st.timer with scheduled := st.timer.scheduled.filter (fun e => e.1 ≠ hd) } := by
      simp [stopTimer, hhd]
    have hkey : handleKeypress mv st c = handleMove mv st δ := by
      simp [handleKeypress, hδ, hnf]
    cases hf : finishedState (mv st.model δ) with
    | false =>
      refine ⟨{ st with model := mv st.model δ },
        { redraws := 1, dialogs := [],
          dimSets := if (mv st.model δ).didLevelUp then 1 else 0,
          timerStopped := false }, ?_, rfl, ?_, ?_⟩
      · rw [hkey]
        simp [handleMove, handleLevelUpdate, hf]
      · intro _
        exact ⟨rfl, rfl⟩
      · intro hcontra
        simp [hf] at hcontra
    | true =>
      cases hw : (mv st.model δ).hasWon with
      | true =>
        refine ⟨({ st with
                    model := mv st.model δ,
                    timer := { st.timer with
                      scheduled := st.timer.scheduled.filter (fun e => e.1 ≠ hd) } }),
          { redraws := 0, dialogs := [WIN_MESSAGE],
            dimSets := if (mv st.model δ).didLevelUp then 1 else 0,
            timerStopped := true }, ?_, rfl, ?_, ?_⟩
        · rw [hkey]
          simp [handleMove, handleLevelUpdate, hf, hw, hstop]
        · intro hcontra
          simp [hf] at hcontra
        · intro _
          exact ⟨rfl, rfl, rfl⟩
      | false =>
        refine ⟨({ st with
                    model := mv st.model δ,
                    timer := { st.timer with
                      scheduled := st.timer.scheduled.filter (fun e => e.1 ≠ hd) } }),
          { redraws := 0, dialogs := [LOSS_MESSAGE],
            dimSets := if (mv st.model δ).didLevelUp then 1 else 0,
            timerStopped := true }, ?_, rfl, ?_, ?_⟩
        · rw [hkey]
          simp [handleMove, handleLevelUpdate, hf, hw, hstop]
        · intro hcontra
          simp [hf] at hcontra
        · intro _
          exact ⟨rfl, rfl, rfl⟩

theorem handleKeypress_spec_witness :
    ∃ st' eff, handleKeypress (fun m _ => m) ctlEx 'w' = some (st', eff) ∧
      st'.model = (fun (m : Model) (_ : Int × Int) => m) ctlEx.model (-1, 0) ∧
      (finishedState ((fun (m : Model) (_ : Int × Int) => m) ctlEx.model (-1, 0)) = false →
        eff.redraws = 1 ∧ eff.dialogs = []) ∧
      (finishedState ((fun (m : Model) (_ : Int × Int) => m) ctlEx.model (-1, 0)) = true →
        eff.redraws = 0 ∧ eff.dialogs.length = 1 ∧ eff.timerStopped = true) :=
  (handleKeypress_spec (fun m _ => m) ctlEx 'w').2 (-1, 0) (by decide) (by decide)
    (by decide)

/-- C7, counterexample: from an unfinished state, the movement key `w`
whose move wins the game does move the player but triggers no redraw (a
message box is shown instead), so "moves the player and triggers a full
redraw" fails as a universal claim. -/
theorem keypress_no_redraw_counterexample :
    lookupMove 'w' = some (-1, 0) ∧
    finishedState ctlEx.model = false ∧
    (handleKeypress mvWin ctlEx 'w').map (fun p => p.2.redraws) = some 0 ∧
    (handleKeypress mvWin ctlEx 'w').map (fun p => p.1.model.hasWon) = some true :=
  ⟨by decide, by decide, by decide, by decide⟩

/-! ### C8: the view layer is read-only over the model -/

theorem mapOpt_isSome {α β : Type} {f : α → Option β} {l : List α}
    (h : ∀ a ∈ l, (f a).isSome = true) : (mapOpt f l).isSome = true := by
  induction l with
  | nil => rfl
  | cons a as ih =>
    have ha := h a (by simp)
    obtain ⟨b, hb⟩ := Option.isSome_iff_exists.mp ha
    have has : (mapOpt f as).isSome = true := ih (fun x hx => h x (by simp [hx]))
    obtain ⟨bs, hbs⟩ := Option.isSome_iff_exists.mp has
    simp [mapOpt, hb, hbs]

theorem cellOps_isSome {tiles : List (List Char)} {items : EntMap} {r c rows cols : Nat}
    (hrows : tiles.length = rows) (hcols : ∀ row ∈ tiles, row.length = cols)
    (hr : r < rows) (hc : c < cols) :
    (cellOps tiles items r c).isSome = true := by
  have hr' : r < tiles.length := by omega
  have hrow : tiles.get? r = some (tiles.get ⟨r, hr'⟩) := by
    rw [List.get?_eq_getElem?, List.getElem?_eq_getElem hr']
    rfl
  have hcl : (tiles.get ⟨r, hr'⟩).length = cols :=
    hcols _ (List.get_mem tiles r hr')
  have hc' : c < (tiles.get ⟨r, hr'⟩).length := by omega
  have hcell : (tiles.get ⟨r, hr'⟩).get? c =
      some ((tiles.get ⟨r, hr'⟩).get ⟨c, hc'⟩) := by
    rw [List.get?_eq_getElem?, List.getElem?_eq_getElem hc']
    rfl
  unfold cellOps
  rw [hrow]
  have hb : (some (tiles.get ⟨r, hr'⟩)).bind (fun row => row.get? c) =
      (tiles.get ⟨r, hr'⟩).get? c := rfl
  rw [hb, hcell]
  cases lookupEnt ((r : Int), (c : Int)) items <;> simp

theorem levelViewDraw_isSome {dims : Nat × Nat} {tiles : List (List Char)}
    {items : EntMap} {ppos : List Int}
    (hrows : tiles.length = dims.1) (hcols : ∀ row ∈ tiles, row.length = dims.2) :
    (levelViewDraw dims tiles items ppos).isSome = true := by
  have hm : (mapOpt (fun rc => cellOps tiles items rc.1 rc.2)
      (((List.range dims.1).map
        (fun r => (List.range dims.2).map (fun c => (r, c)))).flatten)).isSome = true := by
    apply mapOpt_isSome
    intro rc hrc
    simp only [List.mem_flatten, List.mem_map, List.mem_range] at hrc
    obtain ⟨row, ⟨r, hr, hrow⟩, hmem⟩ := hrc
    subst hrow
    simp only [List.mem_map, List.mem_range] at hmem
    obtain ⟨cc, hcc, hrceq⟩ := hmem
    subst hrceq
    exact cellOps_isSome hrows hcols hr hcc
  obtain ⟨ops, hops⟩ := Option.isSome_iff_exists.mp hm
  simp [levelViewDraw, hops]

theorem mem_flattenInv {it : PyItem} {inv : InvMap} :
    it ∈ flattenInv inv ↔ ∃ kv ∈ inv, it ∈ kv.2 := by
  induction inv with
  | nil => simp [flattenInv]
  | cons kv rest ih =>
    simp only [flattenInv, List.foldr_cons, List.mem_append]
    constructor
    · intro h
      rcases h with h | h
      · exact ⟨kv, by simp, h⟩
      · obtain ⟨kv', hkv', hit⟩ := ih.mp h
        exact ⟨kv', by simp [hkv'], hit⟩
    · rintro ⟨kv', hkv', hit⟩
      rcases List.mem_cons.mp hkv' with h | h
      · subst h
        exact Or.inl hit
      · exact Or.inr (ih.mpr ⟨kv', h, hit⟩)

theorem invAdd_groups_ne_nil {inv : InvMap} (h : ∀ kv ∈ inv, kv.2 ≠ []) (it : PyItem) :
    ∀ kv ∈ invAdd inv it, kv.2 ≠ [] := by
  induction inv with
  | nil =>
    intro kv hkv
    simp [invAdd] at hkv
    subst hkv
    simp
  | cons x rest ih =>
    intro kv hkv
    obtain ⟨k, g⟩ := x
    simp only [invAdd] at hkv
    by_cases hk : k = nameChars it.name
    · rw [if_pos hk] at hkv
      rcases List.mem_cons.mp hkv with h' | h'
      · subst h'
        simp
      · exact h kv (by simp [h'])
    · rw [if_neg hk] at hkv
      rcases List.mem_cons.mp hkv with h' | h'
      · subst h'
        exact h (k, g) (by simp)
      · exact ih (fun y hy => h y (by simp [hy])) kv h'

theorem mkInventory_groups_ne_nil (l : List PyItem) :
    ∀ kv ∈ mkInventory l, kv.2 ≠ [] := by
  have hgen : ∀ (l : List PyItem) (inv : InvMap), (∀ kv ∈ inv, kv.2 ≠ []) →
      ∀ kv ∈ List.foldl invAdd inv l, kv.2 ≠ [] := by
    intro l
    induction l with
    | nil => intro inv h kv hkv; exact h kv hkv
    | cons x rest ih =>
      intro inv h kv hkv
      exact ih (invAdd inv x) (invAdd_groups_ne_nil h x) kv hkv
  exact hgen l [] (by simp)

theorem drawInventoryView_isSome {inv : InvMap} (h : ∀ kv ∈ inv, kv.2 ≠ []) :
    (drawInventoryView inv).isSome = true := by
  apply mapOpt_isSome
  intro kv hkv
  have := h kv hkv
  cases hh : kv.2 with
  | nil => exact absurd hh this
  | cons a as => simp [hh]

theorem drawInventorySplit_groups_ne_nil {inv : InvMap} (h : ∀ kv ∈ inv, kv.2 ≠ []) :
    ∀ kv ∈ (drawInventorySplit inv).1, kv.2 ≠ [] := by
  unfold drawInventorySplit
  cases hl : lookupInv coinKey inv with
  | none => exact h
  | some g =>
    simp only
    exact mkInventory_groups_ne_nil _

/-- C8: `GraphicalInterface.draw` (the level, stats and inventory drawing
pipeline) succeeds on any complete tile grid and inventory without empty
groups, and leaves the maze, the item map, the inventory's items and the
player stats exactly as they were: the model data returned after the call
equals the input. In particular `_draw_inventory` builds a separate
`Inventory` from the non-coin items rather than removing coins from the
player's inventory. -/
theorem drawGUI_readonly (maze : Maze) (items : EntMap) (ppos : List Int)
    (inv : InvMap) (stats : Int × Int × Int)
    (hrows : maze.tiles.length = maze.dims.1)
    (hcols : ∀ row ∈ maze.tiles, row.length = maze.dims.2)
    (hinv : ∀ kv ∈ inv, kv.2 ≠ []) :
    ∃ out, drawGUI maze items ppos inv stats =
      some (out, (maze, items, inv, stats)) := by
  obtain ⟨lv, hlv⟩ := Option.isSome_iff_exists.mp
    (@levelViewDraw_isSome maze.dims maze.tiles items ppos hrows hcols)
  obtain ⟨labels, hlab⟩ := Option.isSome_iff_exists.mp
    (drawInventoryView_isSome (drawInventorySplit_groups_ne_nil hinv))
  refine ⟨(lv, drawStats stats, labels, drawCoins (drawInventorySplit inv).2), ?_⟩
  simp [drawGUI, hlv, drawInventoryFull, hlab]

theorem drawGUI_readonly_witness :
    ∃ out, drawGUI mazeEx lvlEx.items [0, 0] playerEx.inventory (9, 1, 2) =
      some (out, (mazeEx, lvlEx.items, playerEx.inventory, (9, 1, 2))) :=
  drawGUI_readonly mazeEx lvlEx.items [0, 0] playerEx.inventory (9, 1, 2)
    (by decide) (by decide) (by decide)

/-! ### C9: coin separation in `_draw_inventory` -/

theorem perm_middle_append (g F : List PyItem) (it : PyItem) :
    List.Perm ((g ++ [it]) ++ F) ((g ++ F) ++ [it]) := by
  have h1 : (g ++ [it]) ++ F = g ++ (it :: F) := by simp
  have h2 : (g ++ F) ++ [it] = g ++ (F ++ [it]) := by simp
  rw [h1, h2]
  exact List.Perm.append_left g (List.perm_append_singleton it F).symm

theorem flattenInv_invAdd (inv : InvMap) (it : PyItem) :
    List.Perm (flattenInv (invAdd inv it)) (flattenInv inv ++ [it]) := by
  induction inv with
  | nil => simp [invAdd, flattenInv]
  | cons x rest ih =>
    obtain ⟨k, g⟩ := x
    by_cases hk : k = nameChars it.name
    · simp only [invAdd, if_pos hk, flattenInv, List.foldr_cons]
      exact perm_middle_append g _ it
    · simp only [invAdd, if_neg hk, flattenInv, List.foldr_cons]
      have h2 : (g ++ List.foldr (fun kv acc => kv.2 ++ acc) [] rest) ++ [it] =
          g ++ (List.foldr (fun kv acc => kv.2 ++ acc) [] rest ++ [it]) := by
        simp
      rw [h2]
      exact List.Perm.append_left g (by simpa [flattenInv] using ih)

theorem flattenInv_mkInventory (l : List PyItem) :
    List.Perm (flattenInv (mkInventory l)) l := by
  have hgen : ∀ (l : List PyItem) (inv : InvMap),
      List.Perm (flattenInv (List.foldl invAdd inv l)) (flattenInv inv ++ l) := by
    intro l
    induction l with
    | nil =>
      intro inv
      simp
    | cons x rest ih =>
      intro inv
      have h1 := ih (invAdd inv x)
      have h2 : List.Perm (flattenInv (invAdd inv x) ++ rest)
          ((flattenInv inv ++ [x]) ++ rest) :=
        (flattenInv_invAdd inv x).append_right rest
      have h3 : (flattenInv inv ++ [x]) ++ rest = flattenInv inv ++ (x :: rest) := by
        simp
      have h4 : flattenInv (List.foldl invAdd inv (x :: rest)) =
          flattenInv (List.foldl invAdd (invAdd inv x) rest) := rfl
      rw [h4, ← h3]
      exact h1.trans h2
  have := hgen l []
  simpa [flattenInv] using this

theorem lookupInv_isSome_of_mem {inv : InvMap} {kv : List Char × List PyItem}
    (hmem : kv ∈ inv) : (lookupInv kv.1 inv).isSome = true := by
  induction inv with
  | nil => simp at hmem
  | cons x rest ih =>
    rcases List.mem_cons.mp hmem with h | h
    · subst h
      simp [lookupInv]
    · by_cases hx : x.1 = kv.1
      · simp [lookupInv, hx]
      · simp [lookupInv, hx, ih h]

theorem coin_filter_eq (l : List PyItem) :
    l.filter (fun it => itemId it.name ≠ COIN_ID) =
    l.filter (fun it => it.name ≠ ItemName.Coin) := by
  apply List.filter_congr
  intro it hit
  cases hn : it.name <;> simp [hn, itemId, COIN_ID]

/-- C9: for every inventory, `_draw_inventory` passes to the stats view a
coin count equal to the number of items under the `Coin` key when that
key is present and `0` when it is absent; and — for inventories whose
dictionary keys group their own items, as the external `Inventory` class
maintains — the inventory passed to the inventory view holds exactly the
non-coin items. -/
theorem drawInventorySplit_spec (inv : InvMap) :
    ((drawInventorySplit inv).2 =
      (match lookupInv coinKey inv with
       | some g => g.length
       | none => 0)) ∧
    ((∀ kv ∈ inv, ∀ it ∈ kv.2, nameChars it.name = kv.1) →
      List.Perm (flattenInv (drawInventorySplit inv).1)
        ((flattenInv inv).filter (fun it => it.name ≠ ItemName.Coin))) := by
  constructor
  · unfold drawInventorySplit
    cases lookupInv coinKey inv <;> rfl
  · intro hwf
    unfold drawInventorySplit
    cases hl : lookupInv coinKey inv with
    | some g =>
      simp only
      rw [coin_filter_eq]
      exact flattenInv_mkInventory _
    | none =>
      simp only
      have hfil : (flattenInv inv).filter (fun it => it.name ≠ ItemName.Coin) =
          flattenInv inv := by
        rw [List.filter_eq_self]
        intro it hit
        obtain ⟨kv, hkv, hmem⟩ := mem_flattenInv.mp hit
        have hname := hwf kv hkv it hmem
        simp only [ne_eq, decide_eq_true_eq]
        intro hcoin
        rw [hcoin] at hname
        have hck : coinKey = kv.1 := by
          rw [← hname]
          rfl
        have hsome : (lookupInv coinKey inv).isSome = true := by
          rw [hck]
          exact lookupInv_isSome_of_mem hkv
        rw [hl] at hsome
        exact absurd hsome (by decide)
      rw [hfil]

theorem drawInventorySplit_spec_witness :
    ((drawInventorySplit playerEx.inventory).2 =
      (match lookupInv coinKey playerEx.inventory with
       | some g => g.length
       | none => 0)) ∧
    List.Perm (flattenInv (drawInventorySplit playerEx.inventory).1)
      ((flattenInv playerEx.inventory).filter (fun it => it.name ≠ ItemName.Coin)) :=
  ⟨(drawInventorySplit_spec playerEx.inventory).1,
   (drawInventorySplit_spec playerEx.inventory).2 (by decide)⟩
